import Mathlib

/-!
Verification of the quorum-communication core of `zef-core/src/updater.rs`:
the weighted quorum broadcaster `communicate_with_quorum` and the
`ValidatorUpdater` session (certificate/proposal submission with bounded
retry, chain-lineage synchronization, and the composed chain update).

The Rust code is shallowly embedded: asynchronous client calls become
oracle functions (indexed by invocation and attempt where the client may
answer differently on repeated calls), machine integers become `Nat`,
fallible code returns `Except`, and a `panic!`/`expect`/`unwrap` abort is a
distinguished `RunResult.panicked` outcome.
-/

set_option autoImplicit false

universe u

/-! ## Base data types (external collaborators of the updater module) -/

/-- Modelled from the spec: a chain identifier is self-identifying and
supports `split()` yielding the parent chain and the child index, or `None`
for a root chain; following `split()` repeatedly terminates.  We represent
the derivation path as a list whose head is the most recent child index. -/
abbrev ChainId := List Nat

/-- Modelled from the spec: `split()` yields `(parent, child index)` for a
derived chain and `None` for a root chain. -/
def ChainId.split : ChainId → Option (ChainId × Nat)
  | [] => none
  | n :: parent => some (parent, n)

/-- Modelled from the spec: the error taxonomy of validator interactions,
with the distinguished "inactive chain" case naming a chain, the protocol
contract violation for a missing pending vote, the authentication failure,
the sequence-number overflow, the local-storage key miss, and generic
remaining cases. -/
inductive Error where
  | inactiveChain (id : ChainId)
  | clientErrorWhileProcessingBlockProposal
  | unexpectedValidatorName
  | sequenceOverflow
  | missingCertificate (key : Nat)
  | insufficientFunding (current_balance : Nat)
  | other (code : Nat)
deriving DecidableEq

/-- `true` exactly on the "inactive chain" error variant. -/
def Error.isInactiveChain : Error → Bool
  | .inactiveChain _ => true
  | _ => false

/-- Modelled from the spec: sequence numbers are unsigned 64-bit integers. -/
abbrev SequenceNumber := Nat

/-- Modelled from the spec: `try_add_one()` fails on `u64` overflow. -/
def SequenceNumber.try_add_one (n : SequenceNumber) : Except Error SequenceNumber :=
  if n < 2 ^ 64 - 1 then .ok (n + 1) else .error .sequenceOverflow

/-- Modelled from the spec: identity of a validator, an opaque comparable key. -/
abbrev ValidatorName := Nat

/-- Modelled from the spec: a request carries the target sequence number of
its chain; the remaining payload is opaque. -/
structure Request where
  sequence_number : SequenceNumber
  payload : Nat := 0
deriving DecidableEq

/-- Modelled from the spec: a pending operations bundle carrying a request. -/
structure BlockProposal where
  request : Request
deriving DecidableEq

/-- Modelled from the spec: the value wrapped by a certificate is either a
validated or a confirmed request. -/
inductive Value where
  | validated (request : Request)
  | confirmed (request : Request)
deriving DecidableEq

/-- Modelled from the spec: `validated_request()` returns the request for a
validated value and `None` otherwise. -/
def Value.validated_request : Value → Option Request
  | .validated r => some r
  | .confirmed _ => none

/-- Modelled from the spec: a finalized, quorum-signed decision wrapping a value. -/
structure Certificate where
  value : Value
deriving DecidableEq

/-- Modelled from the spec: a validator's signed endorsement, tied to one
validator identity. -/
structure Vote where
  validator : ValidatorName
  round : Nat := 0
deriving DecidableEq

/-- Modelled from the spec: `Vote::check(name)` authenticates the vote
against the expected validator identity. -/
def Vote.check (v : Vote) (name : ValidatorName) : Except Error Unit :=
  if v.validator = name then .ok () else .error .unexpectedValidatorName

/-- Modelled from the spec: the proposal/vote state of a chain on a
validator, exposing activity and the pending vote. -/
structure Manager where
  active : Bool
  pending_vote : Option Vote
deriving DecidableEq

def Manager.is_active (m : Manager) : Bool := m.active

def Manager.pending (m : Manager) : Option Vote := m.pending_vote

/-- Modelled from the spec: a validator's view of a chain, carrying the
manager state and the next sequence number. -/
structure ChainInfo where
  manager : Manager
  next_sequence_number : SequenceNumber
deriving DecidableEq

/-- Modelled from the spec: a response wrapping the chain info, which must
be authenticated against the expected validator identity before use. -/
structure ChainInfoResponse where
  info : ChainInfo
  signer : ValidatorName
deriving DecidableEq

/-- Modelled from the spec: `ChainInfoResponse::check(name)` fails with an
authentication error when the response was not produced by `name`. -/
def ChainInfoResponse.check (r : ChainInfoResponse) (name : ValidatorName) : Except Error Unit :=
  if r.signer = name then .ok () else .error .unexpectedValidatorName

/-- The query sent by `send_chain_information`, mirroring the field-by-field
construction in the source. -/
structure ChainInfoQuery where
  chain_id : ChainId
  check_next_sequence_number : Option SequenceNumber
  query_committee : Bool
  query_sent_certificates_in_range : Option (SequenceNumber × SequenceNumber)
  query_received_certificates_excluding_first_nth : Option Nat
deriving DecidableEq

/-- Modelled from the spec: locally stored chain state, with the confirmed
certificate log (a list of certificate keys indexed by sequence number) and
the received index mapping sender chains to their last received sequence
number. -/
structure ChainState where
  confirmed_log : List Nat
  received_index : List (ChainId × SequenceNumber)

/-- Modelled from the spec: `ChainState::is_retriable_validation_error`
(defined in the external base crate) recognizes the domain-specific
validation failures of a proposal — e.g. an insufficient recorded incoming
balance — that receiver-side certificate synchronization may repair. -/
def ChainState.is_retriable_validation_error (_request : Request) (e : Error) : Bool :=
  match e with
  | .insufficientFunding _ => true
  | _ => false

/-- Modelled from the spec: the storage collaborator.
`read_chain_or_default` never fails; `read_certificate` fails on an unknown
key. -/
structure Storage where
  chains : ChainId → ChainState
  certificates : Nat → Option Certificate

def Storage.read_chain_or_default (s : Storage) (chain_id : ChainId) : ChainState :=
  s.chains chain_id

def Storage.read_certificate (s : Storage) (key : Nat) : Except Error Certificate :=
  match s.certificates key with
  | some c => .ok c
  | none => .error (.missingCertificate key)

/-- Modelled from the spec: a weighted voting configuration exposing a
per-validator weight and the two derived thresholds. -/
structure Committee where
  weights : ValidatorName → Nat
  quorum_threshold : Nat
  validity_threshold : Nat

def Committee.weight (c : Committee) (name : ValidatorName) : Nat := c.weights name

/-! ## The quorum broadcaster `communicate_with_quorum`

An execution is modelled by the list of completions of the launched calls
in arrival order: `FuturesUnordered` delivers each launched call exactly
once, in an arbitrary order, so a run of the source function corresponds to
running `quorumLoop` on some permutation of `launchedCalls`. -/

/-- Association-list update mirroring `error_scores.entry(err).or_insert(0) += w`. -/
def updateScore {E : Type u} [DecidableEq E] : List (E × Nat) → E → Nat → List (E × Nat)
  | [], e, w => [(e, w)]
  | (e', s) :: rest, e, w =>
    if e' = e then (e', s + w) :: rest else (e', s) :: updateScore rest e w

/-- Association-list lookup with default 0, mirroring the entry value. -/
def getScore {E : Type u} [DecidableEq E] : List (E × Nat) → E → Nat
  | [], _ => 0
  | (e', s) :: rest, e => if e' = e then s else getScore rest e

/-- The body of the `while let Some((name, result)) = responses.next().await`
loop of `communicate_with_quorum`: `values` and `value_score` accumulate the
successful values and their single total weight, `error_scores` accumulates
weight per distinct error. -/
def quorumLoop {V : Type u} (c : Committee) :
    List (ValidatorName × Except Error V) → List V → Nat → List (Error × Nat) →
    Except (Option Error) (List V)
  | [], _, _, _ => .error none
  | (name, result) :: rest, values, value_score, error_scores =>
    match result with
    | .ok value =>
      let values := values ++ [value]
      let value_score := value_score + c.weight name
      if c.quorum_threshold ≤ value_score then .ok values
      else quorumLoop c rest values value_score error_scores
    | .error err =>
      let error_scores := updateScore error_scores err (c.weight name)
      if c.validity_threshold ≤ getScore error_scores err then .error (some err)
      else quorumLoop c rest values value_score error_scores

/-- `communicate_with_quorum`, as a function of the committee and of the
arrival-ordered list of completions of the launched calls. -/
def communicate_with_quorum {V : Type u} (c : Committee)
    (arrivals : List (ValidatorName × Except Error V)) : Except (Option Error) (List V) :=
  quorumLoop c arrivals [] 0 []

/-- The calls launched by `communicate_with_quorum`: one per validator of
strictly positive committee weight (the `filter_map` over
`validator_clients`), paired with the result its `execute` future produces. -/
def launchedCalls {A : Type u} {V : Type u} (c : Committee)
    (validator_clients : List (ValidatorName × A))
    (execute : ValidatorName → A → Except Error V) :
    List (ValidatorName × Except Error V) :=
  (validator_clients.filter (fun p => 0 < c.weight p.1)).map
    (fun p => (p.1, execute p.1 p.2))

/-- Total committee weight of the arrivals that returned exactly the value `v`. -/
def valueWeight {V : Type u} [DecidableEq V] (c : Committee)
    (arrivals : List (ValidatorName × Except Error V)) (v : V) : Nat :=
  ((arrivals.filter (fun p => match p.2 with | .ok w => decide (w = v) | .error _ => false)).map
    (fun p => c.weight p.1)).sum

/-- Total committee weight of the arrivals that returned exactly the error `e`. -/
def errorWeight {V : Type u} (c : Committee)
    (arrivals : List (ValidatorName × Except Error V)) (e : Error) : Nat :=
  ((arrivals.filter (fun p => match p.2 with | .error e2 => decide (e2 = e) | .ok _ => false)).map
    (fun p => c.weight p.1)).sum

/-- The success values of a list of completions, in order. -/
def successValues {V : Type u} (arrivals : List (ValidatorName × Except Error V)) : List V :=
  arrivals.filterMap (fun p => p.2.toOption)

/-- Total committee weight of all successful arrivals, irrespective of value. -/
def totalSuccessWeight {V : Type u} (c : Committee)
    (arrivals : List (ValidatorName × Except Error V)) : Nat :=
  ((arrivals.filter (fun p => p.2.isOk)).map (fun p => c.weight p.1)).sum

/-- The three quorum-level outcomes distinguished by the spec. -/
inductive Decision where
  | quorum
  | dominantError (e : Error)
  | undecided
deriving DecidableEq

/-- Classification of a `communicate_with_quorum` result into the three
quorum-level outcomes. -/
def resultDecision {V : Type u} : Except (Option Error) (List V) → Decision
  | .ok _ => .quorum
  | .error (some e) => .dominantError e
  | .error none => .undecided

/-- Modelled from the spec (§4.1, with the success side as amended): scan
the completions in arrival order; a single running total of success weight
decides a quorum the instant it reaches `quorum_threshold`, per-error scores
decide a dominant error the instant one reaches `validity_threshold`, and
exhausting the list without a crossing is undecided. -/
def specScan {V : Type u} (c : Committee) :
    List (ValidatorName × Except Error V) → Nat → List (Error × Nat) → Decision
  | [], _, _ => .undecided
  | (name, result) :: rest, total, errs =>
    match result with
    | .ok _ =>
      let total := total + c.weight name
      if c.quorum_threshold ≤ total then .quorum
      else specScan c rest total errs
    | .error err =>
      let errs := updateScore errs err (c.weight name)
      if c.validity_threshold ≤ getScore errs err then .dominantError err
      else specScan c rest total errs

/-! ## The `ValidatorUpdater` session

The client handle is modelled by oracle functions.  A real client is
stateful, so an oracle may answer differently across calls: certificate and
proposal oracles take the invocation index (which `send_certificate` /
`send_block_proposal` invocation this is within one top-level operation)
and the attempt index within that invocation; the chain-info oracle answers
as a function of the query. -/

structure ValidatorUpdater where
  name : ValidatorName
  store : Storage
  retries : Nat
  handle_certificate : Nat → Certificate → Nat → Except Error ChainInfoResponse
  handle_block_proposal : Nat → BlockProposal → Nat → Except Error ChainInfoResponse
  handle_chain_info_query : ChainInfoQuery → Except Error ChainInfoResponse

/-- The retry loop of `send_certificate`, together with the number of
`handle_certificate` attempts it makes.  The source counts attempts upward
with `count < self.retries` gating the retry; here `remaining` is the
number of retries still allowed (initially `retries`), so `count < retries`
holds exactly when `remaining` is a successor. -/
def send_certificate_go (name : ValidatorName)
    (handle : Nat → Except Error ChainInfoResponse) (retryable : Bool) :
    Nat → Nat → Except Error ChainInfo × Nat
  | count, remaining =>
    match handle count, retryable, remaining with
    | .ok response, _, _ =>
      (match response.check name with
      | .ok _ => .ok response.info
      | .error e => .error e, 1)
    | .error (.inactiveChain id), true, r + 1 =>
      let p := send_certificate_go name handle retryable (count + 1) r
      (p.1, p.2 + 1)
    | .error e, _, _ => (.error e, 1)

/-- `ValidatorUpdater::send_certificate` for the `inv`-th certificate
invocation of the current operation; also returns how many submission
attempts were made. -/
def send_certificate (u : ValidatorUpdater) (inv : Nat) (certificate : Certificate)
    (retryable : Bool) : Except Error ChainInfo × Nat :=
  send_certificate_go u.name (u.handle_certificate inv certificate) retryable 0 u.retries

/-- The retry loop of `send_block_proposal`: identical to the certificate
loop except that the retry guard is not gated by a `retryable` flag. -/
def send_block_proposal_go (name : ValidatorName)
    (handle : Nat → Except Error ChainInfoResponse) :
    Nat → Nat → Except Error ChainInfo × Nat
  | count, remaining =>
    match handle count, remaining with
    | .ok response, _ =>
      (match response.check name with
      | .ok _ => .ok response.info
      | .error e => .error e, 1)
    | .error (.inactiveChain id), r + 1 =>
      let p := send_block_proposal_go name handle (count + 1) r
      (p.1, p.2 + 1)
    | .error e, _ => (.error e, 1)

/-- `ValidatorUpdater::send_block_proposal` for the `inv`-th proposal
invocation of the current operation; also returns the attempt count. -/
def send_block_proposal (u : ValidatorUpdater) (inv : Nat) (proposal : BlockProposal) :
    Except Error ChainInfo × Nat :=
  send_block_proposal_go u.name (u.handle_block_proposal inv proposal) 0 u.retries

/-- A synchronization job recorded by the lineage walk of
`send_chain_information`: the tuple
`(chain_id, initial_sequence_number, target_sequence_number, retryable)`. -/
structure Job where
  chain_id : ChainId
  initial_sequence_number : SequenceNumber
  target_sequence_number : SequenceNumber
  retryable : Bool
deriving DecidableEq

/-- The query built at the top of the lineage walk loop. -/
def mkQuery (chain_id : ChainId) : ChainInfoQuery :=
  { chain_id := chain_id
    check_next_sequence_number := none
    query_committee := false
    query_sent_certificates_in_range := none
    query_received_certificates_excluding_first_nth := none }

/-- The first phase of `send_chain_information`: the lineage walk that
figures out which certificates the validator is missing, accumulating jobs
until it reaches a chain the validator reports active (or fails). -/
def walk (u : ValidatorUpdater) (chain_id : ChainId) (target_sequence_number : SequenceNumber)
    (jobs : List Job) : Except Error (List Job) :=
  match u.handle_chain_info_query (mkQuery chain_id) with
  | .ok response =>
    if response.info.manager.is_active then
      match response.check u.name with
      | .ok _ =>
        .ok (jobs ++ [⟨chain_id, response.info.next_sequence_number, target_sequence_number, false⟩])
      | .error e => .error e
    else
      match response.check u.name with
      | .ok _ =>
        match h : ChainId.split chain_id with
        | none => .error (.inactiveChain chain_id)
        | some (parent_id, number) =>
          match SequenceNumber.try_add_one number with
          | .ok next_target =>
            walk u parent_id next_target (jobs ++ [⟨chain_id, 0, target_sequence_number, true⟩])
          | .error e => .error e
      | .error e => .error e
  | .error e => .error e
termination_by chain_id.length
decreasing_by
  cases chain_id with
  | nil => simp [ChainId.split] at h
  | cons n p => simp_all [ChainId.split]

/-- Outcome of a stateful run that may abort: `panicked` models a Rust
`expect`/`unwrap` failure as distinct from returning an `Error`. -/
inductive RunResult (α : Type u) where
  | ok (a : α)
  | err (e : Error)
  | panicked
deriving DecidableEq

/-- The inner replay loop of `send_chain_information` for one job, iterating
over the sequence numbers of the range `initial..target` (given as a list).
Returns the outcome, the `(chain_id, sequence number)` pairs for which a
`send_certificate` invocation was made (in order), and the next certificate
invocation index. -/
def replayNumbers (u : ValidatorUpdater) (chain_id : ChainId) (chain : ChainState)
    (retryable : Bool) : Nat → List Nat → RunResult Unit × List (ChainId × Nat) × Nat
  | inv, [] => (.ok (), [], inv)
  | inv, number :: rest =>
    match chain.confirmed_log[number]? with
    | none => (.panicked, [], inv)
    | some key =>
      match u.store.read_certificate key with
      | .error e => (.err e, [], inv)
      | .ok cert =>
        match send_certificate u inv cert retryable with
        | (.error e, _) => (.err e, [(chain_id, number)], inv + 1)
        | (.ok _, _) =>
          let (res, log, inv') := replayNumbers u chain_id chain retryable (inv + 1) rest
          (res, (chain_id, number) :: log, inv')

/-- The outer replay loop of `send_chain_information`, over the job list in
processing order (the caller reverses the discovery order). -/
def replayJobs (u : ValidatorUpdater) :
    Nat → List Job → RunResult Unit × List (ChainId × Nat) × Nat
  | inv, [] => (.ok (), [], inv)
  | inv, job :: rest =>
    let chain := u.store.read_chain_or_default job.chain_id
    match replayNumbers u job.chain_id chain job.retryable inv
        (List.range' job.initial_sequence_number
          (job.target_sequence_number - job.initial_sequence_number)) with
    | (.ok _, log, inv') =>
      let (res, log', inv'') := replayJobs u inv' rest
      (res, log ++ log', inv'')
    | (res, log, inv') => (res, log, inv')

/-- `ValidatorUpdater::send_chain_information`: the lineage walk followed by
the replay of the recorded jobs in reverse discovery order.  Returns the
outcome, the submission log, and the next certificate invocation index. -/
def send_chain_information (u : ValidatorUpdater) (inv : Nat) (chain_id : ChainId)
    (target_sequence_number : SequenceNumber) :
    RunResult Unit × List (ChainId × Nat) × Nat :=
  match walk u chain_id target_sequence_number [] with
  | .error e => (.err e, [], inv)
  | .ok jobs => replayJobs u inv jobs.reverse

/-- The loop of `send_chain_information_as_a_receiver` over the received
index of the local chain state. -/
def receiverLoop (u : ValidatorUpdater) :
    Nat → List (ChainId × SequenceNumber) → RunResult Unit × List (ChainId × Nat) × Nat
  | inv, [] => (.ok (), [], inv)
  | inv, (sender_id, sequence_number) :: rest =>
    match sequence_number.try_add_one with
    | .error e => (.err e, [], inv)
    | .ok next =>
      match send_chain_information u inv sender_id next with
      | (.ok _, log, inv') =>
        let (res, log', inv'') := receiverLoop u inv' rest
        (res, log ++ log', inv'')
      | (res, log, inv') => (res, log, inv')

/-- `ValidatorUpdater::send_chain_information_as_a_receiver`. -/
def send_chain_information_as_a_receiver (u : ValidatorUpdater) (inv : Nat)
    (chain_id : ChainId) : RunResult Unit × List (ChainId × Nat) × Nat :=
  receiverLoop u inv (u.store.read_chain_or_default chain_id).received_index

/-- `CommunicateAction`, as in the source. -/
inductive CommunicateAction where
  | SubmitRequestForConfirmation (proposal : BlockProposal)
  | SubmitRequestForValidation (proposal : BlockProposal)
  | FinalizeRequest (certificate : Certificate)
  | AdvanceToNextSequenceNumber (seq : SequenceNumber)
deriving DecidableEq

/-- `true` exactly on the pure advance action. -/
def CommunicateAction.isAdvance : CommunicateAction → Bool
  | .AdvanceToNextSequenceNumber _ => true
  | _ => false

/-- The vote-extraction tail shared verbatim by the proposal and finalize
branches of `send_chain_update`: take the manager's pending vote, check it
against the validator identity, and fail with the protocol contract
violation if no vote is pending. -/
def voteFrom (name : ValidatorName) (info : ChainInfo) : RunResult (Option Vote) :=
  match info.manager.pending with
  | some vote =>
    match vote.check name with
    | .ok _ => .ok (some vote)
    | .error e => .err e
  | none => .err .clientErrorWhileProcessingBlockProposal

/-- `ValidatorUpdater::send_chain_update`.  The second component counts the
`send_block_proposal` invocations made (0, 1 or 2); the `unwrap` on a
certificate without a validated request is the `panicked` outcome. -/
def send_chain_update (u : ValidatorUpdater) (chain_id : ChainId)
    (action : CommunicateAction) : RunResult (Option Vote) × Nat :=
  match (match action with
    | .SubmitRequestForValidation proposal => .ok proposal.request.sequence_number
    | .SubmitRequestForConfirmation proposal => .ok proposal.request.sequence_number
    | .FinalizeRequest certificate =>
      match certificate.value.validated_request with
      | some request => .ok request.sequence_number
      | none => .panicked
    | .AdvanceToNextSequenceNumber seq => RunResult.ok seq : RunResult SequenceNumber) with
  | .panicked => (.panicked, 0)
  | .err e => (.err e, 0)
  | .ok target_sequence_number =>
    match send_chain_information u 0 chain_id target_sequence_number with
    | (.err e, _, _) => (.err e, 0)
    | (.panicked, _, _) => (.panicked, 0)
    | (.ok _, _, inv) =>
      match action with
      | .SubmitRequestForValidation proposal | .SubmitRequestForConfirmation proposal =>
        match (send_block_proposal u 0 proposal).1 with
        | .ok info => (voteFrom u.name info, 1)
        | .error e =>
          if ChainState.is_retriable_validation_error proposal.request e then
            match send_chain_information_as_a_receiver u inv chain_id with
            | (.ok _, _, _) =>
              match (send_block_proposal u 1 proposal).1 with
              | .ok info => (voteFrom u.name info, 2)
              | .error e2 => (.err e2, 2)
            | (.err e', _, _) => (.err e', 1)
            | (.panicked, _, _) => (.panicked, 1)
          else (.err e, 1)
      | .FinalizeRequest certificate =>
        let retryable := decide (target_sequence_number = 0)
        match (send_certificate u inv certificate retryable).1 with
        | .ok info => (voteFrom u.name info, 0)
        | .error e => (.err e, 0)
      | .AdvanceToNextSequenceNumber _ => (.ok none, 0)

/-- Concrete scenario: two validators (names 0 and 1) of weight 1 each,
with both thresholds equal to 2. -/
def pairCommittee : Committee :=
  { weights := fun n => if n ≤ 1 then 1 else 0
    quorum_threshold := 2
    validity_threshold := 2 }

/-- Concrete scenario: validator 0 has weight 1, every other validator has
weight 0; both thresholds are 1. -/
def zeroWeightCommittee : Committee :=
  { weights := fun n => if n = 0 then 1 else 0
    quorum_threshold := 1
    validity_threshold := 1 }

/-- The planned submissions of one job: its chain id paired with every
sequence number of `[initial, target)` in increasing order. -/
def jobPlan (job : Job) : List (ChainId × Nat) :=
  (List.range' job.initial_sequence_number
    (job.target_sequence_number - job.initial_sequence_number)).map
    (fun number => (job.chain_id, number))

/-- The planned submissions of a job list in processing order. -/
def planJobs : List Job → List (ChainId × Nat)
  | [] => []
  | job :: rest => jobPlan job ++ planJobs rest

/-- The planned submissions of a walk result: the jobs are processed in
reverse discovery order (ancestors first), each with its ascending range. -/
def submissionPlan (jobs : List Job) : List (ChainId × Nat) :=
  planJobs jobs.reverse

/-- The parent-link relation between adjacent jobs of a lineage walk: the
later-discovered job's chain is the parent of the earlier one, and its
target is the child index plus one. -/
def jobStep (j1 j2 : Job) : Prop :=
  ∃ n, ChainId.split j1.chain_id = some (j2.chain_id, n) ∧
    SequenceNumber.try_add_one n = .ok j2.target_sequence_number

/-- The job suffix appended by a lineage walk starting at a given chain and
target: a (possibly empty) run of inactive chains, each recorded with
initial sequence number 0 and `retryable = true` and continued at its
parent with target one past the child index, ended by the first active
chain, recorded with the validator's reported next sequence number and
`retryable = false`. -/
inductive WalkTail (u : ValidatorUpdater) : ChainId → SequenceNumber → List Job → Prop where
  | active (chain_id : ChainId) (target : SequenceNumber) (resp : ChainInfoResponse)
      (hq : u.handle_chain_info_query (mkQuery chain_id) = .ok resp)
      (ha : resp.info.manager.is_active = true)
      (hc : resp.check u.name = .ok ()) :
      WalkTail u chain_id target
        [⟨chain_id, resp.info.next_sequence_number, target, false⟩]
  | step (chain_id : ChainId) (target : SequenceNumber) (resp : ChainInfoResponse)
      (parent_id : ChainId) (number : Nat) (next_target : SequenceNumber) (tail : List Job)
      (hq : u.handle_chain_info_query (mkQuery chain_id) = .ok resp)
      (ha : resp.info.manager.is_active = false)
      (hc : resp.check u.name = .ok ())
      (hs : ChainId.split chain_id = some (parent_id, number))
      (ht : SequenceNumber.try_add_one number = .ok next_target)
      (htail : WalkTail u parent_id next_target tail) :
      WalkTail u chain_id target (⟨chain_id, 0, target, true⟩ :: tail)

/-- Concrete scenario: a three-chain lineage.  Chain `[0, 1]` and its
parent `[1]` are inactive on the validator; the root `[]` is active with
next sequence number 2.  Local storage holds one confirmed certificate for
`[1]` (key 11) and one for `[0, 1]` (key 21); every certificate submission
succeeds. -/
def lineageUpdater : ValidatorUpdater :=
  { name := 7
    store :=
      { chains := fun chain_id =>
          if chain_id = [1] then ⟨[11], []⟩
          else if chain_id = [0, 1] then ⟨[21], []⟩
          else ⟨[], []⟩
        certificates := fun _ => some ⟨Value.confirmed ⟨0, 0⟩⟩ }
    retries := 0
    handle_certificate := fun _ _ _ => .ok ⟨⟨⟨true, none⟩, 0⟩, 7⟩
    handle_block_proposal := fun _ _ _ => .ok ⟨⟨⟨true, none⟩, 0⟩, 7⟩
    handle_chain_info_query := fun q =>
      if q.chain_id = [] then .ok ⟨⟨⟨true, none⟩, 2⟩, 7⟩
      else .ok ⟨⟨⟨false, none⟩, 0⟩, 7⟩ }

/-- Concrete scenario: the validator reports every chain inactive via a
successful, authenticated response (so a walk always ends at an unknown
root). -/
def rootUnknownUpdater : ValidatorUpdater :=
  { name := 2
    store := ⟨fun _ => ⟨[], []⟩, fun _ => none⟩
    retries := 0
    handle_certificate := fun _ _ _ => .error (.other 0)
    handle_block_proposal := fun _ _ _ => .error (.other 0)
    handle_chain_info_query := fun _ => .ok ⟨⟨⟨false, none⟩, 0⟩, 2⟩ }

/-- Concrete scenario: every chain-info query itself fails with an
"inactive chain" error (client-side pass-through), so the walk never
receives any successful response. -/
def queryErrorUpdater : ValidatorUpdater :=
  { name := 2
    store := ⟨fun _ => ⟨[], []⟩, fun _ => none⟩
    retries := 0
    handle_certificate := fun _ _ _ => .error (.other 0)
    handle_block_proposal := fun _ _ _ => .error (.other 0)
    handle_chain_info_query := fun _ => .error (.inactiveChain [9]) }

/-- Concrete scenario for the retry bounds: `retries = 2`; the client
answers certificate and proposal submissions with "inactive chain" forever
on invocation 0, and with "inactive chain" once followed by a generic error
on invocation 1. -/
def retryUpdater : ValidatorUpdater :=
  { name := 0
    store := ⟨fun _ => ⟨[], []⟩, fun _ => none⟩
    retries := 2
    handle_certificate := fun inv _ att =>
      if inv = 0 then .error (.inactiveChain [0])
      else if att = 0 then .error (.inactiveChain [0]) else .error (.other 2)
    handle_block_proposal := fun inv _ att =>
      if inv = 0 then .error (.inactiveChain [0])
      else if att = 0 then .error (.inactiveChain [0]) else .error (.other 2)
    handle_chain_info_query := fun _ => .error (.other 0) }

/-- Concrete scenario: every chain is active with next sequence number 5;
certificate submissions return a pending vote by validator 3; proposal
submissions return a pending vote unless the proposal's payload is 1, in
which case the response carries no pending vote. -/
def voteUpdater : ValidatorUpdater :=
  { name := 3
    store := ⟨fun _ => ⟨[], []⟩, fun _ => none⟩
    retries := 0
    handle_certificate := fun _ _ _ => .ok ⟨⟨⟨true, some ⟨3, 0⟩⟩, 5⟩, 3⟩
    handle_block_proposal := fun _ p _ =>
      if p.request.payload = 1 then .ok ⟨⟨⟨true, none⟩, 5⟩, 3⟩
      else .ok ⟨⟨⟨true, some ⟨3, 0⟩⟩, 5⟩, 3⟩
    handle_chain_info_query := fun _ => .ok ⟨⟨⟨true, none⟩, 5⟩, 3⟩ }

/-- Concrete scenario: every chain is active with next sequence number 9
and an empty received index; the first proposal invocation fails with the
retriable "insufficient funding" error (or a non-retriable generic error
when the proposal's payload is 1), the retry invocation succeeds with a
pending vote by validator 4. -/
def retriableUpdater : ValidatorUpdater :=
  { name := 4
    store := ⟨fun _ => ⟨[], []⟩, fun _ => none⟩
    retries := 0
    handle_certificate := fun _ _ _ => .ok ⟨⟨⟨true, some ⟨4, 0⟩⟩, 9⟩, 4⟩
    handle_block_proposal := fun inv p _ =>
      if p.request.payload = 1 then .error (.other 9)
      else if inv = 0 then .error (.insufficientFunding 0)
      else .ok ⟨⟨⟨true, some ⟨4, 0⟩⟩, 9⟩, 4⟩
    handle_chain_info_query := fun _ => .ok ⟨⟨⟨true, none⟩, 9⟩, 4⟩ }

/-! ## Lemmas about the quorum broadcaster -/

theorem getScore_updateScore_self {E : Type u} [DecidableEq E] (l : List (E × Nat)) (e : E)
    (w : Nat) : getScore (updateScore l e w) e = getScore l e + w := by
  induction l with
  | nil => simp [updateScore, getScore]
  | cons head rest ih =>
    obtain ⟨e', s⟩ := head
    by_cases h : e' = e
    · simp [updateScore, getScore, h]
    · simp [updateScore, getScore, h, ih]

theorem getScore_updateScore_ne {E : Type u} [DecidableEq E] (l : List (E × Nat)) (e e' : E)
    (w : Nat) (h : e' ≠ e) : getScore (updateScore l e w) e' = getScore l e' := by
  have h2 : e ≠ e' := Ne.symm h
  induction l with
  | nil => simp [updateScore, getScore, h2]
  | cons head rest ih =>
    obtain ⟨e3, s⟩ := head
    by_cases h3 : e3 = e
    · subst h3
      simp [updateScore, getScore, h2]
    · simp [updateScore, getScore, h3, ih]

@[simp] theorem successValues_nil {V : Type u} : successValues ([] : List (ValidatorName × Except Error V)) = [] := rfl

@[simp] theorem successValues_cons_ok {V : Type u} (n : ValidatorName) (v : V)
    (rest : List (ValidatorName × Except Error V)) :
    successValues ((n, Except.ok v) :: rest) = v :: successValues rest := rfl

@[simp] theorem successValues_cons_error {V : Type u} (n : ValidatorName) (e : Error)
    (rest : List (ValidatorName × Except Error V)) :
    successValues ((n, Except.error e) :: rest) = successValues rest := rfl

@[simp] theorem totalSuccessWeight_nil {V : Type u} (c : Committee) :
    totalSuccessWeight c ([] : List (ValidatorName × Except Error V)) = 0 := rfl

@[simp] theorem totalSuccessWeight_cons_ok {V : Type u} (c : Committee) (n : ValidatorName)
    (v : V) (rest : List (ValidatorName × Except Error V)) :
    totalSuccessWeight c ((n, Except.ok v) :: rest) = c.weight n + totalSuccessWeight c rest := by
  simp [totalSuccessWeight, Except.isOk, Except.toBool]

@[simp] theorem totalSuccessWeight_cons_error {V : Type u} (c : Committee) (n : ValidatorName)
    (e : Error) (rest : List (ValidatorName × Except Error V)) :
    totalSuccessWeight c ((n, Except.error e) :: rest) = totalSuccessWeight c rest := by
  simp [totalSuccessWeight, Except.isOk, Except.toBool]

@[simp] theorem errorWeight_nil {V : Type u} (c : Committee) (e : Error) :
    errorWeight c ([] : List (ValidatorName × Except Error V)) e = 0 := rfl

@[simp] theorem errorWeight_cons_ok {V : Type u} (c : Committee) (n : ValidatorName) (v : V)
    (rest : List (ValidatorName × Except Error V)) (e : Error) :
    errorWeight c ((n, Except.ok v) :: rest) e = errorWeight c rest e := by
  simp [errorWeight]

theorem errorWeight_cons_error {V : Type u} (c : Committee) (n : ValidatorName) (e2 : Error)
    (rest : List (ValidatorName × Except Error V)) (e : Error) :
    errorWeight c ((n, Except.error e2) :: rest) e =
      (if e2 = e then c.weight n else 0) + errorWeight c rest e := by
  by_cases h : e2 = e <;> simp [errorWeight, h]

/-- The result classification of the source loop agrees with the spec-side
scan at every loop state. -/
theorem resultDecision_quorumLoop {V : Type u} (c : Committee) :
    ∀ (arrivals : List (ValidatorName × Except Error V)) (values : List V) (score : Nat)
      (errs : List (Error × Nat)),
      resultDecision (quorumLoop c arrivals values score errs) = specScan c arrivals score errs := by
  intro arrivals
  induction arrivals with
  | nil => intro values score errs; rfl
  | cons head rest ih =>
    intro values score errs
    obtain ⟨name, result⟩ := head
    cases result with
    | ok v =>
      by_cases h : c.quorum_threshold ≤ score + c.weight name
      · simp [quorumLoop, specScan, h, resultDecision]
      · simp [quorumLoop, specScan, h, ih]
    | error e =>
      by_cases h : c.validity_threshold ≤ getScore (updateScore errs e (c.weight name)) e
      · simp [quorumLoop, specScan, h, resultDecision]
      · simp [quorumLoop, specScan, h, ih]

/-- A successful outcome of the source loop consumes a prefix of the
arrivals, returns all success values of that prefix (of any distinct
values), and its single accumulated success total reached the quorum
threshold. -/
theorem quorumLoop_ok_prefix {V : Type u} (c : Committee) :
    ∀ (arrivals : List (ValidatorName × Except Error V)) (values : List V) (score : Nat)
      (errs : List (Error × Nat)) (vs : List V),
      quorumLoop c arrivals values score errs = .ok vs →
      ∃ p rest, arrivals = p ++ rest ∧ vs = values ++ successValues p ∧
        c.quorum_threshold ≤ score + totalSuccessWeight c p := by
  intro arrivals
  induction arrivals with
  | nil => intro values score errs vs h; simp [quorumLoop] at h
  | cons head rest ih =>
    intro values score errs vs h
    obtain ⟨name, result⟩ := head
    cases result with
    | ok v =>
      by_cases hq : c.quorum_threshold ≤ score + c.weight name
      · simp [quorumLoop, hq] at h
        refine ⟨[(name, Except.ok v)], rest, by simp, by simp [h.symm], by simpa using hq⟩
      · simp [quorumLoop, hq] at h
        obtain ⟨p, rest', hsplit, hvs, hscore⟩ := ih (values ++ [v]) (score + c.weight name) errs vs h
        refine ⟨(name, Except.ok v) :: p, rest', by simp [hsplit], by simp [hvs], ?_⟩
        simpa [Nat.add_assoc, Nat.add_comm, Nat.add_left_comm] using hscore
    | error e =>
      by_cases hv : c.validity_threshold ≤ getScore (updateScore errs e (c.weight name)) e
      · simp [quorumLoop, hv] at h
      · simp [quorumLoop, hv] at h
        obtain ⟨p, rest', hsplit, hvs, hscore⟩ :=
          ih values score (updateScore errs e (c.weight name)) vs h
        exact ⟨(name, Except.error e) :: p, rest', by simp [hsplit], by simp [hvs], by simpa using hscore⟩

/-- When the spec-side scan reports a dominant error, the total weight of
that error over the whole arrival list (plus its incoming score) reaches
the validity threshold. -/
theorem specScan_dominantError_weight {V : Type u} (c : Committee) :
    ∀ (arrivals : List (ValidatorName × Except Error V)) (score : Nat)
      (errs : List (Error × Nat)) (e : Error),
      specScan c arrivals score errs = .dominantError e →
      c.validity_threshold ≤ getScore errs e + errorWeight c arrivals e := by
  intro arrivals
  induction arrivals with
  | nil => intro score errs e h; simp [specScan] at h
  | cons head rest ih =>
    intro score errs e h
    obtain ⟨name, result⟩ := head
    cases result with
    | ok v =>
      by_cases hq : c.quorum_threshold ≤ score + c.weight name
      · simp [specScan, hq] at h
      · simp [specScan, hq] at h
        simpa using ih (score + c.weight name) errs e h
    | error e2 =>
      by_cases hv : c.validity_threshold ≤ getScore (updateScore errs e2 (c.weight name)) e2
      · simp [specScan, hv] at h
        subst h
        rw [getScore_updateScore_self] at hv
        rw [errorWeight_cons_error, if_pos rfl]
        omega
      · simp [specScan, hv] at h
        have := ih score (updateScore errs e2 (c.weight name)) e h
        rw [errorWeight_cons_error]
        by_cases he : e2 = e
        · subst he
          rw [getScore_updateScore_self] at this
          rw [if_pos rfl]
          omega
        · rw [getScore_updateScore_ne _ _ _ _ (fun h2 => he h2.symm)] at this
          simp only [if_neg he]
          omega

/-! ## Claims C1 - C3: the quorum broadcaster -/

/-- Claim C1, counterexample.  The claim states that success weight is
accumulated separately per distinct returned value and that a successful
outcome requires a single distinct value to reach `quorum_threshold`.  In
the source, `value_score` is a single total over all successes: with two
unit-weight validators returning the distinct values 10 and 20 and a quorum
threshold of 2, the function returns success although neither distinct
value has accumulated weight 2. -/
theorem claim1_counterexample :
    communicate_with_quorum pairCommittee
        [(0, Except.ok (10 : Nat)), (1, Except.ok 20)] = .ok [10, 20]
    ∧ pairCommittee.quorum_threshold = 2
    ∧ (∀ v : Nat,
        valueWeight pairCommittee [(0, Except.ok (10 : Nat)), (1, Except.ok 20)] v ≤ 1) := by
  refine ⟨rfl, rfl, ?_⟩
  intro v
  by_cases h1 : v = 10
  · subst h1; decide
  · by_cases h2 : v = 20
    · subst h2; decide
    · simp [valueWeight, Ne.symm h1, Ne.symm h2]

/-- Claim C1 (amended): for every committee and every interleaving of the
launched per-validator results, `communicate_with_quorum` accumulates
success weight in one single total across all returned values (weight of
validators that returned a different value does count), and returns a
successful outcome exactly when this total reaches `quorum_threshold`
before any single error reaches `validity_threshold`; the returned list
collects every success value of the consumed prefix. -/
theorem claim1_quorum_by_single_total {A V : Type u} (c : Committee)
    (validator_clients : List (ValidatorName × A))
    (execute : ValidatorName → A → Except Error V)
    (arrivals : List (ValidatorName × Except Error V))
    (_hinterleaving : arrivals.Perm (launchedCalls c validator_clients execute)) :
    ((∃ vs, communicate_with_quorum c arrivals = .ok vs) ↔
      specScan c arrivals 0 [] = Decision.quorum)
    ∧ (∀ vs, communicate_with_quorum c arrivals = .ok vs →
        ∃ p rest, arrivals = p ++ rest ∧ vs = successValues p ∧
          c.quorum_threshold ≤ totalSuccessWeight c p) := by
  have hclass := resultDecision_quorumLoop c arrivals [] 0 []
  constructor
  · constructor
    · rintro ⟨vs, h⟩
      have h' : quorumLoop c arrivals [] 0 [] = .ok vs := h
      rw [h'] at hclass
      simpa [resultDecision] using hclass.symm
    · intro h
      rw [h] at hclass
      cases hq : quorumLoop c arrivals [] 0 [] with
      | ok vs => exact ⟨vs, hq⟩
      | error o =>
        rw [hq] at hclass
        cases o <;> simp [resultDecision] at hclass
  · intro vs h
    have h' : quorumLoop c arrivals [] 0 [] = .ok vs := h
    obtain ⟨p, rest, h1, h2, h3⟩ := quorumLoop_ok_prefix c arrivals [] 0 [] vs h'
    exact ⟨p, rest, h1, by simpa using h2, by simpa using h3⟩

/-- Witness for C1 (amended) at a concrete committee, client list, execute
function and arrival order. -/
theorem claim1_witness :
    ((∃ vs, communicate_with_quorum pairCommittee
        (launchedCalls pairCommittee [(0, ()), (1, ())] (fun _ _ => Except.ok (7 : Nat))) =
          .ok vs) ↔
      specScan pairCommittee
        (launchedCalls pairCommittee [(0, ()), (1, ())] (fun _ _ => Except.ok (7 : Nat))) 0 [] =
        Decision.quorum)
    ∧ (∀ vs, communicate_with_quorum pairCommittee
        (launchedCalls pairCommittee [(0, ()), (1, ())] (fun _ _ => Except.ok (7 : Nat))) =
          .ok vs →
        ∃ p rest,
          launchedCalls pairCommittee [(0, ()), (1, ())] (fun _ _ => Except.ok (7 : Nat)) =
            p ++ rest ∧
          vs = successValues p ∧
          pairCommittee.quorum_threshold ≤ totalSuccessWeight pairCommittee p) :=
  claim1_quorum_by_single_total pairCommittee [(0, ()), (1, ())]
    (fun _ _ => Except.ok (7 : Nat)) _ (List.Perm.refl _)

/-- Claim C2, counterexample.  The claim's undecided clause requires
`Err(None)` whenever every call completes with no single success value
reaching `quorum_threshold` and no error reaching `validity_threshold`.
With two unit-weight validators returning distinct values 30 and 40
(thresholds 2), no distinct value reaches 2 and there are no errors at all,
yet the source returns a success rather than the undecided outcome. -/
theorem claim2_counterexample :
    communicate_with_quorum pairCommittee
        [(0, Except.ok (30 : Nat)), (1, Except.ok 40)] = .ok [30, 40]
    ∧ (∀ v : Nat,
        valueWeight pairCommittee [(0, Except.ok (30 : Nat)), (1, Except.ok 40)] v <
          pairCommittee.quorum_threshold)
    ∧ (∀ e : Error,
        errorWeight pairCommittee [(0, Except.ok (30 : Nat)), (1, Except.ok 40)] e = 0)
    ∧ communicate_with_quorum pairCommittee
        [(0, Except.ok (30 : Nat)), (1, Except.ok 40)] ≠ .error none := by
  have hres : communicate_with_quorum pairCommittee
      [(0, Except.ok (30 : Nat)), (1, Except.ok 40)] = .ok [30, 40] := rfl
  refine ⟨hres, ?_, ?_, ?_⟩
  · intro v
    by_cases h1 : v = 30
    · subst h1; decide
    · by_cases h2 : v = 40
      · subst h2; decide
      · simp [valueWeight, Ne.symm h1, Ne.symm h2, pairCommittee]
  · intro e
    simp [errorWeight]
  · rw [hres]
    exact fun h => Except.noConfusion h

/-- Claim C2 (amended): for every committee and every interleaving of the
launched per-validator results, `communicate_with_quorum` accumulates error
weight per distinct error; it returns `Err(Some e)` exactly when the
accumulated weight of the single distinct error `e` reaches
`validity_threshold` first (and then the total weight of `e` over the run
is at least `validity_threshold`), and it returns the undecided outcome
`Err(None)` exactly when every launched call completes without the total
success weight reaching `quorum_threshold` and without any single error
reaching `validity_threshold`. -/
theorem claim2_error_threshold {A V : Type u} (c : Committee)
    (validator_clients : List (ValidatorName × A))
    (execute : ValidatorName → A → Except Error V)
    (arrivals : List (ValidatorName × Except Error V))
    (_hinterleaving : arrivals.Perm (launchedCalls c validator_clients execute)) :
    (∀ e, communicate_with_quorum c arrivals = .error (some e) ↔
      specScan c arrivals 0 [] = Decision.dominantError e)
    ∧ (communicate_with_quorum c arrivals = .error none ↔
      specScan c arrivals 0 [] = Decision.undecided)
    ∧ (∀ e, communicate_with_quorum c arrivals = .error (some e) →
        c.validity_threshold ≤ errorWeight c arrivals e) := by
  have hclass := resultDecision_quorumLoop c arrivals [] 0 []
  refine ⟨?_, ?_, ?_⟩
  · intro e
    constructor
    · intro h
      have h' : quorumLoop c arrivals [] 0 [] = .error (some e) := h
      rw [h'] at hclass
      simpa [resultDecision] using hclass.symm
    · intro h
      rw [h] at hclass
      cases hq : quorumLoop c arrivals [] 0 [] with
      | ok vs => rw [hq] at hclass; simp [resultDecision] at hclass
      | error o =>
        rw [hq] at hclass
        cases o with
        | none => simp [resultDecision] at hclass
        | some e2 =>
          simp only [resultDecision] at hclass
          cases hclass
          exact hq
  · constructor
    · intro h
      have h' : quorumLoop c arrivals [] 0 [] = .error none := h
      rw [h'] at hclass
      simpa [resultDecision] using hclass.symm
    · intro h
      rw [h] at hclass
      cases hq : quorumLoop c arrivals [] 0 [] with
      | ok vs => rw [hq] at hclass; simp [resultDecision] at hclass
      | error o =>
        rw [hq] at hclass
        cases o with
        | none => exact hq
        | some e2 => simp [resultDecision] at hclass
  · intro e h
    have h' : quorumLoop c arrivals [] 0 [] = .error (some e) := h
    rw [h'] at hclass
    have hspec : specScan c arrivals 0 [] = Decision.dominantError e := by
      simpa [resultDecision] using hclass.symm
    have := specScan_dominantError_weight c arrivals 0 [] e hspec
    simpa [getScore] using this

/-- Witness for C2 (amended) at a concrete committee, client list, execute
function and arrival order in which both validators report the same error. -/
theorem claim2_witness :
    (∀ e, communicate_with_quorum pairCommittee
        (launchedCalls pairCommittee [(0, ()), (1, ())]
          (fun _ _ => (Except.error (Error.other 5) : Except Error Nat))) = .error (some e) ↔
      specScan pairCommittee
        (launchedCalls pairCommittee [(0, ()), (1, ())]
          (fun _ _ => (Except.error (Error.other 5) : Except Error Nat))) 0 [] =
        Decision.dominantError e)
    ∧ (communicate_with_quorum pairCommittee
        (launchedCalls pairCommittee [(0, ()), (1, ())]
          (fun _ _ => (Except.error (Error.other 5) : Except Error Nat))) = .error none ↔
      specScan pairCommittee
        (launchedCalls pairCommittee [(0, ()), (1, ())]
          (fun _ _ => (Except.error (Error.other 5) : Except Error Nat))) 0 [] =
        Decision.undecided)
    ∧ (∀ e, communicate_with_quorum pairCommittee
        (launchedCalls pairCommittee [(0, ()), (1, ())]
          (fun _ _ => (Except.error (Error.other 5) : Except Error Nat))) = .error (some e) →
        pairCommittee.validity_threshold ≤
          errorWeight pairCommittee
            (launchedCalls pairCommittee [(0, ()), (1, ())]
              (fun _ _ => (Except.error (Error.other 5) : Except Error Nat))) e) :=
  claim2_error_threshold pairCommittee [(0, ()), (1, ())]
    (fun _ _ => (Except.error (Error.other 5) : Except Error Nat)) _ (List.Perm.refl _)

/-- Claim C3: a validator of committee weight zero is never launched by
`communicate_with_quorum` (its action never contributes a completion),
every launched completion carries strictly positive weight (so no score
ever receives weight from a zero-weight validator), and two runs whose
per-validator behaviours differ only on zero-weight validators launch
identical call lists — hence admit exactly the same arrival interleavings
and outcomes. -/
theorem claim3_zero_weight_isolated {A V : Type u} (c : Committee)
    (validator_clients : List (ValidatorName × A))
    (execute execute' : ValidatorName → A → Except Error V)
    (hagree : ∀ n a, 0 < c.weight n → execute n a = execute' n a) :
    (∀ n, c.weight n = 0 →
      ∀ r, (n, r) ∉ launchedCalls c validator_clients execute)
    ∧ (∀ p, p ∈ launchedCalls c validator_clients execute → 0 < c.weight p.1)
    ∧ launchedCalls c validator_clients execute =
        launchedCalls c validator_clients execute' := by
  have hpos : ∀ p, p ∈ launchedCalls c validator_clients execute → 0 < c.weight p.1 := by
    intro p hp
    rw [launchedCalls, List.mem_map] at hp
    obtain ⟨q, hq, rfl⟩ := hp
    have := List.mem_filter.mp hq
    simpa using this.2
  refine ⟨?_, hpos, ?_⟩
  · intro n hn r hmem
    have := hpos _ hmem
    simp only at this
    omega
  · rw [launchedCalls, launchedCalls]
    apply List.map_congr_left
    intro p hp
    have hmem := List.mem_filter.mp hp
    have hw : 0 < c.weight p.1 := by simpa using hmem.2
    rw [hagree p.1 p.2 hw]

/-- Witness for C3: a committee where validator 5 has weight zero, and two
execute functions that differ exactly on validator 5. -/
theorem claim3_witness :
    (∀ n, zeroWeightCommittee.weight n = 0 →
      ∀ r, (n, r) ∉ launchedCalls zeroWeightCommittee [(0, ()), (5, ())]
        (fun _ _ => Except.ok (1 : Nat)))
    ∧ (∀ p, p ∈ launchedCalls zeroWeightCommittee [(0, ()), (5, ())]
        (fun _ _ => Except.ok (1 : Nat)) → 0 < zeroWeightCommittee.weight p.1)
    ∧ launchedCalls zeroWeightCommittee [(0, ()), (5, ())] (fun _ _ => Except.ok (1 : Nat)) =
        launchedCalls zeroWeightCommittee [(0, ()), (5, ())]
          (fun n _ => if n = 5 then Except.error (Error.other 0) else Except.ok 1) :=
  claim3_zero_weight_isolated zeroWeightCommittee [(0, ()), (5, ())]
    (fun _ _ => Except.ok (1 : Nat))
    (fun n _ => if n = 5 then Except.error (Error.other 0) else Except.ok 1)
    (fun n _ h => by
      have hn : n = 0 := by
        by_cases h0 : n = 0
        · exact h0
        · simp [zeroWeightCommittee, Committee.weight, h0] at h
      subst hn
      rfl)

/-! ## Claim C4: retry bounds of `send_certificate` and `send_block_proposal` -/

/-- With `retryable = true` and a client that answers "inactive chain" on
every attempt, the certificate loop makes `remaining + 1` attempts and then
fails with that error. -/
theorem send_certificate_go_all_inactive (name : ValidatorName)
    (handle : Nat → Except Error ChainInfoResponse) (cid : ChainId)
    (h : ∀ att, handle att = .error (.inactiveChain cid)) :
    ∀ remaining count, send_certificate_go name handle true count remaining =
      (.error (.inactiveChain cid), remaining + 1) := by
  intro remaining
  induction remaining with
  | zero => intro count; simp [send_certificate_go, h count]
  | succ r ih => intro count; simp [send_certificate_go, h count, ih (count + 1)]

/-- With `retryable = false` the certificate loop makes exactly one attempt
whenever the client answers with any error. -/
theorem send_certificate_go_not_retryable (name : ValidatorName)
    (handle : Nat → Except Error ChainInfoResponse) (e : Error) (count remaining : Nat)
    (h : handle count = .error e) :
    send_certificate_go name handle false count remaining = (.error e, 1) := by
  cases e <;> simp [send_certificate_go, h]

/-- If the client answers "inactive chain" on the first `k` attempts and a
non-"inactive chain" error on attempt `k ≤ remaining`, the retryable
certificate loop stops right there, after `k + 1` attempts. -/
theorem send_certificate_go_first_other_error (name : ValidatorName)
    (handle : Nat → Except Error ChainInfoResponse) (cid : ChainId) (e : Error)
    (he : e.isInactiveChain = false) :
    ∀ k count remaining, (∀ j, j < k → handle (count + j) = .error (.inactiveChain cid)) →
      handle (count + k) = .error e → k ≤ remaining →
      send_certificate_go name handle true count remaining = (.error e, k + 1) := by
  intro k
  induction k with
  | zero =>
    intro count remaining _ hk _
    simp only [Nat.add_zero] at hk
    cases e <;> simp_all [send_certificate_go, Error.isInactiveChain]
  | succ k ih =>
    intro count remaining hj hk hle
    obtain ⟨r, rfl⟩ : ∃ r, remaining = r + 1 := ⟨remaining - 1, by omega⟩
    have h0 : handle count = .error (.inactiveChain cid) := by
      simpa using hj 0 (Nat.succ_pos k)
    have hrec := ih (count + 1) r
      (fun j hjk => by
        have := hj (j + 1) (by omega)
        simpa [Nat.add_assoc, Nat.add_comm 1 j] using this)
      (by simpa [Nat.add_assoc, Nat.add_comm 1 k] using hk)
      (by omega)
    simp [send_certificate_go, h0, hrec]

/-- With a client that answers "inactive chain" on every attempt, the
proposal loop makes `remaining + 1` attempts and then fails with that
error (no `retryable` flag gates it). -/
theorem send_block_proposal_go_all_inactive (name : ValidatorName)
    (handle : Nat → Except Error ChainInfoResponse) (cid : ChainId)
    (h : ∀ att, handle att = .error (.inactiveChain cid)) :
    ∀ remaining count, send_block_proposal_go name handle count remaining =
      (.error (.inactiveChain cid), remaining + 1) := by
  intro remaining
  induction remaining with
  | zero => intro count; simp [send_block_proposal_go, h count]
  | succ r ih => intro count; simp [send_block_proposal_go, h count, ih (count + 1)]

/-- If the client answers "inactive chain" on the first `k` attempts and a
non-"inactive chain" error on attempt `k ≤ remaining`, the proposal loop
stops right there, after `k + 1` attempts. -/
theorem send_block_proposal_go_first_other_error (name : ValidatorName)
    (handle : Nat → Except Error ChainInfoResponse) (cid : ChainId) (e : Error)
    (he : e.isInactiveChain = false) :
    ∀ k count remaining, (∀ j, j < k → handle (count + j) = .error (.inactiveChain cid)) →
      handle (count + k) = .error e → k ≤ remaining →
      send_block_proposal_go name handle count remaining = (.error e, k + 1) := by
  intro k
  induction k with
  | zero =>
    intro count remaining _ hk _
    simp only [Nat.add_zero] at hk
    cases e <;> simp_all [send_block_proposal_go, Error.isInactiveChain]
  | succ k ih =>
    intro count remaining hj hk hle
    obtain ⟨r, rfl⟩ : ∃ r, remaining = r + 1 := ⟨remaining - 1, by omega⟩
    have h0 : handle count = .error (.inactiveChain cid) := by
      simpa using hj 0 (Nat.succ_pos k)
    have hrec := ih (count + 1) r
      (fun j hjk => by
        have := hj (j + 1) (by omega)
        simpa [Nat.add_assoc, Nat.add_comm 1 j] using this)
      (by simpa [Nat.add_assoc, Nat.add_comm 1 k] using hk)
      (by omega)
    simp [send_block_proposal_go, h0, hrec]

/-- Claim C4: with `retries = R` and a client that always returns "inactive
chain", `send_certificate(..., retryable = true)` submits exactly `R + 1`
times then fails with that error; with `retryable = false` it submits
exactly once and fails; `send_block_proposal` submits exactly `R + 1`
times unconditionally; and for both operations, a first occurrence of any
error other than "inactive chain" at attempt `k` is propagated immediately
after exactly `k + 1` submissions. -/
theorem claim4_retry_bounds (u : ValidatorUpdater) (inv : Nat) (certificate : Certificate)
    (proposal : BlockProposal) (cid : ChainId) (e : Error) (k : Nat) :
    ((∀ att, u.handle_certificate inv certificate att = .error (.inactiveChain cid)) →
      send_certificate u inv certificate true = (.error (.inactiveChain cid), u.retries + 1)
      ∧ send_certificate u inv certificate false = (.error (.inactiveChain cid), 1))
    ∧ ((∀ att, u.handle_block_proposal inv proposal att = .error (.inactiveChain cid)) →
      send_block_proposal u inv proposal = (.error (.inactiveChain cid), u.retries + 1))
    ∧ ((∀ j, j < k → u.handle_certificate inv certificate j = .error (.inactiveChain cid)) →
      u.handle_certificate inv certificate k = .error e → e.isInactiveChain = false →
      k ≤ u.retries →
      send_certificate u inv certificate true = (.error e, k + 1))
    ∧ ((∀ j, j < k → u.handle_block_proposal inv proposal j = .error (.inactiveChain cid)) →
      u.handle_block_proposal inv proposal k = .error e → e.isInactiveChain = false →
      k ≤ u.retries →
      send_block_proposal u inv proposal = (.error e, k + 1)) := by
  refine ⟨?_, ?_, ?_, ?_⟩
  · intro h
    exact ⟨send_certificate_go_all_inactive u.name _ cid h u.retries 0,
      send_certificate_go_not_retryable u.name _ _ 0 u.retries (h 0)⟩
  · intro h
    exact send_block_proposal_go_all_inactive u.name _ cid h u.retries 0
  · intro hj hk he hle
    exact send_certificate_go_first_other_error u.name _ cid e he k 0 u.retries
      (fun j hjk => by simpa using hj j hjk) (by simpa using hk) hle
  · intro hj hk he hle
    exact send_block_proposal_go_first_other_error u.name _ cid e he k 0 u.retries
      (fun j hjk => by simpa using hj j hjk) (by simpa using hk) hle

/-- Witness for C4 on `retryUpdater` (`retries = 2`): certificate
invocation 0 always answers "inactive chain" (3 attempts retryable, 1
attempt not retryable; proposals always retry), and invocation 1 answers
"inactive chain" then a generic error (2 attempts). -/
theorem claim4_witness :
    send_certificate retryUpdater 0 ⟨Value.confirmed ⟨0, 0⟩⟩ true =
      (.error (.inactiveChain [0]), 3)
    ∧ send_certificate retryUpdater 0 ⟨Value.confirmed ⟨0, 0⟩⟩ false =
      (.error (.inactiveChain [0]), 1)
    ∧ send_block_proposal retryUpdater 0 ⟨⟨0, 0⟩⟩ = (.error (.inactiveChain [0]), 3)
    ∧ send_certificate retryUpdater 1 ⟨Value.confirmed ⟨0, 0⟩⟩ true = (.error (.other 2), 2)
    ∧ send_block_proposal retryUpdater 1 ⟨⟨0, 0⟩⟩ = (.error (.other 2), 2) := by
  have h0 := claim4_retry_bounds retryUpdater 0 ⟨Value.confirmed ⟨0, 0⟩⟩ ⟨⟨0, 0⟩⟩ [0]
    (.other 2) 1
  have h1 := claim4_retry_bounds retryUpdater 1 ⟨Value.confirmed ⟨0, 0⟩⟩ ⟨⟨0, 0⟩⟩ [0]
    (.other 2) 1
  refine ⟨(h0.1 (fun att => rfl)).1, (h0.1 (fun att => rfl)).2,
    h0.2.1 (fun att => rfl), ?_, ?_⟩
  · exact h1.2.2.1
      (fun j hj => by
        have : j = 0 := by omega
        subst this
        rfl)
      rfl rfl (by decide)
  · exact h1.2.2.2
      (fun j hj => by
        have : j = 0 := by omega
        subst this
        rfl)
      rfl rfl (by decide)

/-! ## Claims C5, C6, C9: `send_chain_information` -/

/-- Walk unfolding: an active, authenticated response ends the walk with
one final job carrying the reported next sequence number. -/
theorem walk_active (u : ValidatorUpdater) (chain_id : ChainId) (target : SequenceNumber)
    (jobs : List Job) (resp : ChainInfoResponse)
    (hq : u.handle_chain_info_query (mkQuery chain_id) = .ok resp)
    (ha : resp.info.manager.is_active = true)
    (hc : resp.check u.name = .ok ()) :
    walk u chain_id target jobs =
      .ok (jobs ++ [⟨chain_id, resp.info.next_sequence_number, target, false⟩]) := by
  rw [walk, hq]
  simp [ha, hc]

/-- Walk unfolding: an inactive, authenticated response on a chain with a
parent records a retryable job and continues at the parent with target one
past the child index. -/
theorem walk_step (u : ValidatorUpdater) (chain_id : ChainId) (target : SequenceNumber)
    (jobs : List Job) (resp : ChainInfoResponse) (parent_id : ChainId) (number : Nat)
    (next_target : SequenceNumber)
    (hq : u.handle_chain_info_query (mkQuery chain_id) = .ok resp)
    (ha : resp.info.manager.is_active = false)
    (hc : resp.check u.name = .ok ())
    (hs : ChainId.split chain_id = some (parent_id, number))
    (ht : SequenceNumber.try_add_one number = .ok next_target) :
    walk u chain_id target jobs =
      walk u parent_id next_target (jobs ++ [⟨chain_id, 0, target, true⟩]) := by
  rw [walk, hq]
  simp only [ha, hc, Bool.false_eq_true, if_false]
  split
  · next heq => rw [hs] at heq; cases heq
  · next p2 n2 heq =>
    rw [hs] at heq
    cases heq
    rw [ht]

/-- Walk unfolding: an inactive, authenticated response on a root chain
fails with the "inactive chain" error naming that chain. -/
theorem walk_root (u : ValidatorUpdater) (chain_id : ChainId) (target : SequenceNumber)
    (jobs : List Job) (resp : ChainInfoResponse)
    (hq : u.handle_chain_info_query (mkQuery chain_id) = .ok resp)
    (ha : resp.info.manager.is_active = false)
    (hc : resp.check u.name = .ok ())
    (hs : ChainId.split chain_id = none) :
    walk u chain_id target jobs = .error (.inactiveChain chain_id) := by
  rw [walk, hq]
  simp only [ha, hc, Bool.false_eq_true, if_false]
  split
  · rfl
  · next p2 n2 heq => rw [hs] at heq; cases heq

/-- Walk unfolding: a failing chain-info query is propagated verbatim. -/
theorem walk_query_error (u : ValidatorUpdater) (chain_id : ChainId)
    (target : SequenceNumber) (jobs : List Job) (e : Error)
    (hq : u.handle_chain_info_query (mkQuery chain_id) = .error e) :
    walk u chain_id target jobs = .error e := by
  rw [walk, hq]

/-- A successful walk appends a `WalkTail` suffix to its accumulator. -/
theorem walk_ok_characterization (u : ValidatorUpdater) :
    ∀ (chain_id : ChainId) (target : SequenceNumber) (jobs0 jobs : List Job),
      walk u chain_id target jobs0 = .ok jobs →
      ∃ tail, jobs = jobs0 ++ tail ∧ WalkTail u chain_id target tail := by
  intro chain_id
  induction chain_id with
  | nil =>
    intro target jobs0 jobs h
    cases hq : u.handle_chain_info_query (mkQuery []) with
    | error e => rw [walk_query_error u [] target jobs0 e hq] at h; cases h
    | ok resp =>
      cases ha : resp.info.manager.is_active with
      | false =>
        cases hc : resp.check u.name with
        | error e => rw [walk, hq] at h; simp [ha, hc] at h
        | ok v =>
          cases v
          rw [walk_root u [] target jobs0 resp hq ha hc rfl] at h
          cases h
      | true =>
        cases hc : resp.check u.name with
        | error e => rw [walk, hq] at h; simp [ha, hc] at h
        | ok v =>
          cases v
          rw [walk_active u [] target jobs0 resp hq ha hc] at h
          cases h
          exact ⟨_, rfl, WalkTail.active [] target resp hq ha hc⟩
  | cons n parent ih =>
    intro target jobs0 jobs h
    cases hq : u.handle_chain_info_query (mkQuery (n :: parent)) with
    | error e => rw [walk_query_error u (n :: parent) target jobs0 e hq] at h; cases h
    | ok resp =>
      cases ha : resp.info.manager.is_active with
      | false =>
        cases hc : resp.check u.name with
        | error e => rw [walk, hq] at h; simp [ha, hc] at h
        | ok v =>
          cases v
          cases ht : SequenceNumber.try_add_one n with
          | error e =>
            rw [walk, hq] at h
            simp [ha, hc, ChainId.split, ht] at h
          | ok next_target =>
            rw [walk_step u (n :: parent) target jobs0 resp parent n next_target hq ha hc rfl
              ht] at h
            obtain ⟨tail, htail, hwt⟩ := ih next_target (jobs0 ++ [⟨n :: parent, 0, target, true⟩])
              jobs h
            refine ⟨⟨n :: parent, 0, target, true⟩ :: tail, ?_,
              WalkTail.step (n :: parent) target resp parent n next_target tail hq ha hc rfl ht
                hwt⟩
            simp [htail]
      | true =>
        cases hc : resp.check u.name with
        | error e => rw [walk, hq] at h; simp [ha, hc] at h
        | ok v =>
          cases v
          rw [walk_active u (n :: parent) target jobs0 resp hq ha hc] at h
          cases h
          exact ⟨_, rfl, WalkTail.active (n :: parent) target resp hq ha hc⟩

theorem WalkTail.ne_nil {u : ValidatorUpdater} {c : ChainId} {t : SequenceNumber}
    {tail : List Job} (h : WalkTail u c t tail) : tail ≠ [] := by
  cases h <;> simp

theorem WalkTail.head_shape {u : ValidatorUpdater} {c : ChainId} {t : SequenceNumber}
    {tail : List Job} (h : WalkTail u c t tail) :
    ∃ j rest, tail = j :: rest ∧ j.chain_id = c ∧ j.target_sequence_number = t := by
  cases h with
  | active c t resp hq ha hc => exact ⟨_, [], rfl, rfl, rfl⟩
  | step c t resp p n nt tl hq ha hc hs ht htail => exact ⟨_, tl, rfl, rfl, rfl⟩

theorem WalkTail.dropLast_shape {u : ValidatorUpdater} {c : ChainId} {t : SequenceNumber}
    {tail : List Job} (h : WalkTail u c t tail) :
    ∀ j ∈ tail.dropLast, j.initial_sequence_number = 0 ∧ j.retryable = true := by
  induction h with
  | active c t resp hq ha hc => simp
  | step c t resp p n nt tl hq ha hc hs ht htail ih =>
    intro j hj
    rw [List.dropLast_cons_of_ne_nil htail.ne_nil] at hj
    rcases List.mem_cons.mp hj with hj | hj
    · subst hj; exact ⟨rfl, rfl⟩
    · exact ih j hj

theorem WalkTail.getLast_shape {u : ValidatorUpdater} {c : ChainId} {t : SequenceNumber}
    {tail : List Job} (h : WalkTail u c t tail) :
    ∀ hne : tail ≠ [], (tail.getLast hne).retryable = false := by
  induction h with
  | active c t resp hq ha hc => intro hne; simp [List.getLast]
  | step c t resp p n nt tl hq ha hc hs ht htail ih =>
    intro hne
    rw [List.getLast_cons htail.ne_nil]
    exact ih htail.ne_nil

theorem WalkTail.getLast_active {u : ValidatorUpdater} {c : ChainId} {t : SequenceNumber}
    {tail : List Job} (h : WalkTail u c t tail) :
    ∀ hne : tail ≠ [], ∃ resp : ChainInfoResponse,
      u.handle_chain_info_query (mkQuery (tail.getLast hne).chain_id) = .ok resp ∧
      resp.info.manager.is_active = true ∧
      resp.check u.name = .ok () ∧
      (tail.getLast hne).initial_sequence_number = resp.info.next_sequence_number := by
  induction h with
  | active c t resp hq ha hc =>
    intro hne
    refine ⟨resp, ?_, ha, hc, ?_⟩
    · simpa [List.getLast] using hq
    · simp [List.getLast]
  | step c t resp p n nt tl hq ha hc hs ht htail ih =>
    intro hne
    rw [List.getLast_cons htail.ne_nil]
    exact ih htail.ne_nil

theorem WalkTail.chain {u : ValidatorUpdater} {c : ChainId} {t : SequenceNumber}
    {tail : List Job} (h : WalkTail u c t tail) : List.Chain' jobStep tail := by
  induction h with
  | active c t resp hq ha hc => simp
  | step c t resp p n nt tl hq ha hc hs ht htail ih =>
    obtain ⟨j2, rest, rfl, hcid, htgt⟩ := htail.head_shape
    exact List.Chain'.cons ⟨n, by rw [hcid]; exact hs, by rw [htgt]; exact ht⟩ ih

theorem replayNumbers_log (u : ValidatorUpdater) (cid : ChainId) (chain : ChainState)
    (retryable : Bool) :
    ∀ (numbers : List Nat) (inv : Nat),
      (replayNumbers u cid chain retryable inv numbers).2.1 <+:
        numbers.map (fun n => (cid, n))
      ∧ ((replayNumbers u cid chain retryable inv numbers).1 = .ok () →
          (replayNumbers u cid chain retryable inv numbers).2.1 =
            numbers.map (fun n => (cid, n))) := by
  intro numbers
  induction numbers with
  | nil => intro inv; exact ⟨⟨[], rfl⟩, fun _ => rfl⟩
  | cons number rest ih =>
    intro inv
    cases hlog : chain.confirmed_log[number]? with
    | none =>
      have hstep : replayNumbers u cid chain retryable inv (number :: rest) =
          (.panicked, [], inv) := by
        simp [replayNumbers, hlog]
      rw [hstep]
      exact ⟨⟨_, rfl⟩, fun h => by cases h⟩
    | some key =>
      cases hrc : u.store.read_certificate key with
      | error e =>
        have hstep : replayNumbers u cid chain retryable inv (number :: rest) =
            (.err e, [], inv) := by
          simp [replayNumbers, hlog, hrc]
        rw [hstep]
        exact ⟨⟨_, rfl⟩, fun h => by cases h⟩
      | ok cert =>
        rcases hsc : send_certificate u inv cert retryable with ⟨r, cnt⟩
        cases r with
        | error e =>
          have hstep : replayNumbers u cid chain retryable inv (number :: rest) =
              (.err e, [(cid, number)], inv + 1) := by
            simp [replayNumbers, hlog, hrc, hsc]
          rw [hstep]
          exact ⟨⟨_, rfl⟩, fun h => by cases h⟩
        | ok info =>
          rcases hrec : replayNumbers u cid chain retryable (inv + 1) rest with
            ⟨res', log', inv''⟩
          have hstep : replayNumbers u cid chain retryable inv (number :: rest) =
              (res', (cid, number) :: log', inv'') := by
            simp [replayNumbers, hlog, hrc, hsc, hrec]
          rw [hstep]
          obtain ⟨hpre, hok⟩ := ih (inv + 1)
          rw [hrec] at hpre hok
          simp only at hpre hok
          obtain ⟨t, ht⟩ := hpre
          refine ⟨⟨t, by simp [← ht]⟩, fun h => ?_⟩
          simp only [List.map_cons]
          rw [hok h]

theorem replayJobs_log (u : ValidatorUpdater) :
    ∀ (js : List Job) (inv : Nat), (replayJobs u inv js).2.1 <+: planJobs js := by
  intro js
  induction js with
  | nil => intro inv; exact ⟨[], rfl⟩
  | cons job rest ih =>
    intro inv
    rcases hrn : replayNumbers u job.chain_id (u.store.read_chain_or_default job.chain_id)
        job.retryable inv
        (List.range' job.initial_sequence_number
          (job.target_sequence_number - job.initial_sequence_number)) with ⟨res, log1, inv'⟩
    obtain ⟨hpre, hok⟩ := replayNumbers_log u job.chain_id
      (u.store.read_chain_or_default job.chain_id) job.retryable
      (List.range' job.initial_sequence_number
        (job.target_sequence_number - job.initial_sequence_number)) inv
    rw [hrn] at hpre hok
    simp only at hpre hok
    have hplan : (List.range' job.initial_sequence_number
        (job.target_sequence_number - job.initial_sequence_number)).map
          (fun n => (job.chain_id, n)) = jobPlan job := rfl
    cases res with
    | ok a =>
      cases a
      have hfull : log1 = jobPlan job := (hok rfl).trans hplan
      rcases hrec : replayJobs u inv' rest with ⟨res2, log2, inv2⟩
      have hstep : replayJobs u inv (job :: rest) = (res2, log1 ++ log2, inv2) := by
        simp [replayJobs, hrn, hrec]
      rw [hstep]
      obtain ⟨t, ht⟩ := ih inv'
      rw [hrec] at ht
      simp only at ht
      exact ⟨t, by simp [planJobs, hfull, ← ht]⟩
    | err e =>
      have hstep : replayJobs u inv (job :: rest) = (.err e, log1, inv') := by
        simp [replayJobs, hrn]
      rw [hstep]
      obtain ⟨t, ht⟩ := hpre
      rw [hplan] at ht
      exact ⟨t ++ planJobs rest, by simp [planJobs, ← ht]⟩
    | panicked =>
      have hstep : replayJobs u inv (job :: rest) = (.panicked, log1, inv') := by
        simp [replayJobs, hrn]
      rw [hstep]
      obtain ⟨t, ht⟩ := hpre
      rw [hplan] at ht
      exact ⟨t ++ planJobs rest, by simp [planJobs, ← ht]⟩

theorem mem_range'_of_bounds {i t n : Nat} (h1 : i ≤ n) (h2 : n < t) :
    n ∈ List.range' i (t - i) := by
  rw [List.mem_range'_1]
  omega

theorem replayNumbers_no_panic (u : ValidatorUpdater) (cid : ChainId) (chain : ChainState)
    (retryable : Bool) :
    ∀ (numbers : List Nat) (inv : Nat),
      (∀ n ∈ numbers, n < chain.confirmed_log.length) →
      (replayNumbers u cid chain retryable inv numbers).1 ≠ .panicked := by
  intro numbers
  induction numbers with
  | nil => intro inv _ h; cases h
  | cons number rest ih =>
    intro inv hlt
    cases hlog : chain.confirmed_log[number]? with
    | none =>
      have := hlt number (List.mem_cons_self number rest)
      rw [List.getElem?_eq_none_iff] at hlog
      omega
    | some key =>
      cases hrc : u.store.read_certificate key with
      | error e => simp [replayNumbers, hlog, hrc]
      | ok cert =>
        rcases hsc : send_certificate u inv cert retryable with ⟨r, cnt⟩
        cases r with
        | error e => simp [replayNumbers, hlog, hrc, hsc]
        | ok info =>
          rcases hrec : replayNumbers u cid chain retryable (inv + 1) rest with
            ⟨res', log', inv''⟩
          have hstep : replayNumbers u cid chain retryable inv (number :: rest) =
              (res', (cid, number) :: log', inv'') := by
            simp [replayNumbers, hlog, hrc, hsc, hrec]
          rw [hstep]
          have := ih (inv + 1) (fun n hn => hlt n (List.mem_cons_of_mem number hn))
          rw [hrec] at this
          exact this

theorem replayNumbers_ok_complete (u : ValidatorUpdater) (cid : ChainId) (chain : ChainState)
    (retryable : Bool) :
    ∀ (numbers : List Nat) (inv : Nat),
      (replayNumbers u cid chain retryable inv numbers).1 = .ok () →
      ∀ n ∈ numbers, n < chain.confirmed_log.length := by
  intro numbers
  induction numbers with
  | nil => intro inv _ n hn; cases hn
  | cons number rest ih =>
    intro inv hok n hn
    cases hlog : chain.confirmed_log[number]? with
    | none =>
      have hstep : replayNumbers u cid chain retryable inv (number :: rest) =
          (.panicked, [], inv) := by
        simp [replayNumbers, hlog]
      rw [hstep] at hok
      cases hok
    | some key =>
      have hnum : number < chain.confirmed_log.length := by
        by_contra hge
        rw [List.getElem?_eq_none_iff.mpr (by omega)] at hlog
        cases hlog
      cases hrc : u.store.read_certificate key with
      | error e =>
        have hstep : replayNumbers u cid chain retryable inv (number :: rest) =
            (.err e, [], inv) := by
          simp [replayNumbers, hlog, hrc]
        rw [hstep] at hok
        cases hok
      | ok cert =>
        rcases hsc : send_certificate u inv cert retryable with ⟨r, cnt⟩
        cases r with
        | error e =>
          have hstep : replayNumbers u cid chain retryable inv (number :: rest) =
              (.err e, [(cid, number)], inv + 1) := by
            simp [replayNumbers, hlog, hrc, hsc]
          rw [hstep] at hok
          cases hok
        | ok info =>
          rcases hrec : replayNumbers u cid chain retryable (inv + 1) rest with
            ⟨res', log', inv''⟩
          have hstep : replayNumbers u cid chain retryable inv (number :: rest) =
              (res', (cid, number) :: log', inv'') := by
            simp [replayNumbers, hlog, hrc, hsc, hrec]
          rw [hstep] at hok
          simp only at hok
          rcases List.mem_cons.mp hn with hn | hn
          · omega
          · have := ih (inv + 1)
            rw [hrec] at this
            exact this hok n hn

theorem replayJobs_no_panic (u : ValidatorUpdater) :
    ∀ (js : List Job) (inv : Nat),
      (∀ job ∈ js, ∀ n, job.initial_sequence_number ≤ n →
        n < job.target_sequence_number →
        n < (u.store.read_chain_or_default job.chain_id).confirmed_log.length) →
      (replayJobs u inv js).1 ≠ .panicked := by
  intro js
  induction js with
  | nil => intro inv _ h; cases h
  | cons job rest ih =>
    intro inv hcomplete
    rcases hrn : replayNumbers u job.chain_id (u.store.read_chain_or_default job.chain_id)
        job.retryable inv
        (List.range' job.initial_sequence_number
          (job.target_sequence_number - job.initial_sequence_number)) with ⟨res, log1, inv'⟩
    have hnp := replayNumbers_no_panic u job.chain_id
      (u.store.read_chain_or_default job.chain_id) job.retryable
      (List.range' job.initial_sequence_number
        (job.target_sequence_number - job.initial_sequence_number)) inv
      (fun n hn => by
        rw [List.mem_range'_1] at hn
        obtain ⟨h1, h2⟩ := hn
        have h3 : n < job.target_sequence_number := by omega
        exact hcomplete job (List.mem_cons_self job rest) n h1 h3)
    rw [hrn] at hnp
    simp only at hnp
    cases res with
    | ok a =>
      cases a
      rcases hrec : replayJobs u inv' rest with ⟨res2, log2, inv2⟩
      have hstep : replayJobs u inv (job :: rest) = (res2, log1 ++ log2, inv2) := by
        simp [replayJobs, hrn, hrec]
      rw [hstep]
      have := ih inv' (fun j hj => hcomplete j (List.mem_cons_of_mem job hj))
      rw [hrec] at this
      exact this
    | err e =>
      have hstep : replayJobs u inv (job :: rest) = (.err e, log1, inv') := by
        simp [replayJobs, hrn]
      rw [hstep]
      simp
    | panicked => exact absurd rfl hnp

theorem replayJobs_ok_complete (u : ValidatorUpdater) :
    ∀ (js : List Job) (inv : Nat),
      (replayJobs u inv js).1 = .ok () →
      ∀ job ∈ js, ∀ n, job.initial_sequence_number ≤ n →
        n < job.target_sequence_number →
        n < (u.store.read_chain_or_default job.chain_id).confirmed_log.length := by
  intro js
  induction js with
  | nil => intro inv _ job hj; cases hj
  | cons job rest ih =>
    intro inv hok j hj n hn1 hn2
    rcases hrn : replayNumbers u job.chain_id (u.store.read_chain_or_default job.chain_id)
        job.retryable inv
        (List.range' job.initial_sequence_number
          (job.target_sequence_number - job.initial_sequence_number)) with ⟨res, log1, inv'⟩
    cases res with
    | ok a =>
      cases a
      rcases hrec : replayJobs u inv' rest with ⟨res2, log2, inv2⟩
      have hstep : replayJobs u inv (job :: rest) = (res2, log1 ++ log2, inv2) := by
        simp [replayJobs, hrn, hrec]
      rw [hstep] at hok
      simp only at hok
      rcases List.mem_cons.mp hj with hj | hj
      · subst hj
        have := replayNumbers_ok_complete u j.chain_id
          (u.store.read_chain_or_default j.chain_id) j.retryable
          (List.range' j.initial_sequence_number
            (j.target_sequence_number - j.initial_sequence_number)) inv
        rw [hrn] at this
        exact this rfl n (mem_range'_of_bounds hn1 hn2)
      · have := ih inv'
        rw [hrec] at this
        exact this hok j hj n hn1 hn2
    | err e =>
      have hstep : replayJobs u inv (job :: rest) = (.err e, log1, inv') := by
        simp [replayJobs, hrn]
      rw [hstep] at hok
      cases hok
    | panicked =>
      have hstep : replayJobs u inv (job :: rest) = (.panicked, log1, inv') := by
        simp [replayJobs, hrn]
      rw [hstep] at hok
      cases hok

/-- Claim C5: a successful lineage walk records one job per visited chain —
the first job is the queried chain with the requested target, every job
except the last has initial sequence number 0 and `retryable = true`, the
last (the first active chain, reported active by a successful
authenticated response) has `retryable = false` and records the
validator's reported `next_sequence_number` as its initial sequence
number, and adjacent jobs are linked by `split()` with the parent's target
one past the child index.  The replay submits along a prefix of the plan
that processes the jobs in reverse discovery order (ancestors strictly
before descendants), each job's sequence numbers covering
`[initial, target)` in strictly increasing order. -/
theorem claim5_lineage_jobs_and_order (u : ValidatorUpdater) (inv : Nat) (chain_id : ChainId)
    (target : SequenceNumber) (jobs : List Job) (res : RunResult Unit)
    (log : List (ChainId × Nat)) (inv' : Nat)
    (hwalk : walk u chain_id target [] = .ok jobs)
    (hrun : send_chain_information u inv chain_id target = (res, log, inv')) :
    jobs ≠ []
    ∧ (∃ j rest, jobs = j :: rest ∧ j.chain_id = chain_id ∧
        j.target_sequence_number = target)
    ∧ (∀ j ∈ jobs.dropLast, j.initial_sequence_number = 0 ∧ j.retryable = true)
    ∧ (∀ hne : jobs ≠ [], (jobs.getLast hne).retryable = false)
    ∧ (∀ hne : jobs ≠ [], ∃ resp : ChainInfoResponse,
        u.handle_chain_info_query (mkQuery (jobs.getLast hne).chain_id) = .ok resp ∧
        resp.info.manager.is_active = true ∧
        resp.check u.name = .ok () ∧
        (jobs.getLast hne).initial_sequence_number = resp.info.next_sequence_number)
    ∧ List.Chain' jobStep jobs
    ∧ log <+: submissionPlan jobs
    ∧ (∀ j ∈ jobs, List.Pairwise (· < ·) ((jobPlan j).map Prod.snd)) := by
  obtain ⟨tail, htail, hwt⟩ := walk_ok_characterization u chain_id target [] jobs hwalk
  simp only [List.nil_append] at htail
  subst htail
  have hrun' : replayJobs u inv jobs.reverse = (res, log, inv') := by
    simp only [send_chain_information, hwalk] at hrun
    exact hrun
  refine ⟨hwt.ne_nil, hwt.head_shape, hwt.dropLast_shape, hwt.getLast_shape,
    hwt.getLast_active, hwt.chain, ?_, ?_⟩
  · have hpre := replayJobs_log u jobs.reverse inv
    rw [hrun'] at hpre
    exact hpre
  · intro j hj
    have hmap : (jobPlan j).map Prod.snd = List.range' j.initial_sequence_number
        (j.target_sequence_number - j.initial_sequence_number) := by
      simp [jobPlan, List.map_map, Function.comp]
    rw [hmap]
    exact List.pairwise_lt_range' _ _

/-- Evaluation of the lineage walk in the concrete three-chain scenario:
two inactive chains are recorded with initial 0 and `retryable = true`, the
active root with its reported next sequence number and `retryable = false`. -/
theorem lineage_walk_eval :
    walk lineageUpdater [0, 1] 1 [] =
      .ok [⟨[0, 1], 0, 1, true⟩, ⟨[1], 0, 1, true⟩, ⟨[], 2, 2, false⟩] := by
  have h1 := walk_step lineageUpdater [0, 1] 1 [] ⟨⟨⟨false, none⟩, 0⟩, 7⟩ [1] 0 1
    rfl rfl rfl rfl rfl
  have h2 := walk_step lineageUpdater [1] 1 [⟨[0, 1], 0, 1, true⟩] ⟨⟨⟨false, none⟩, 0⟩, 7⟩
    [] 1 2 rfl rfl rfl rfl rfl
  have h3 := walk_active lineageUpdater [] 2 [⟨[0, 1], 0, 1, true⟩, ⟨[1], 0, 1, true⟩]
    ⟨⟨⟨true, none⟩, 2⟩, 7⟩ rfl rfl rfl
  rw [h1]
  simp only [List.nil_append]
  rw [h2]
  simp only [List.cons_append, List.nil_append]
  rw [h3]
  rfl

/-- Evaluation of the full synchronization in the concrete three-chain
scenario: the replay submits the ancestor's certificate before the
descendant's. -/
theorem lineage_run_eval :
    send_chain_information lineageUpdater 0 [0, 1] 1 =
      (.ok (), [([1], 0), ([0, 1], 0)], 2) := by
  simp only [send_chain_information, lineage_walk_eval]
  rfl

/-- Witness for C5 in the concrete three-chain scenario. -/
theorem claim5_witness :
    ([⟨[0, 1], 0, 1, true⟩, ⟨[1], 0, 1, true⟩, ⟨[], 2, 2, false⟩] : List Job) ≠ []
    ∧ (∃ j rest, ([⟨[0, 1], 0, 1, true⟩, ⟨[1], 0, 1, true⟩, ⟨[], 2, 2, false⟩] :
        List Job) = j :: rest ∧ j.chain_id = [0, 1] ∧ j.target_sequence_number = 1)
    ∧ (∀ j ∈ ([⟨[0, 1], 0, 1, true⟩, ⟨[1], 0, 1, true⟩, ⟨[], 2, 2, false⟩] :
        List Job).dropLast, j.initial_sequence_number = 0 ∧ j.retryable = true)
    ∧ (∀ hne : ([⟨[0, 1], 0, 1, true⟩, ⟨[1], 0, 1, true⟩, ⟨[], 2, 2, false⟩] :
        List Job) ≠ [],
        (([⟨[0, 1], 0, 1, true⟩, ⟨[1], 0, 1, true⟩, ⟨[], 2, 2, false⟩] :
          List Job).getLast hne).retryable = false)
    ∧ (∀ hne : ([⟨[0, 1], 0, 1, true⟩, ⟨[1], 0, 1, true⟩, ⟨[], 2, 2, false⟩] :
        List Job) ≠ [], ∃ resp : ChainInfoResponse,
        lineageUpdater.handle_chain_info_query
          (mkQuery (([⟨[0, 1], 0, 1, true⟩, ⟨[1], 0, 1, true⟩, ⟨[], 2, 2, false⟩] :
            List Job).getLast hne).chain_id) = .ok resp ∧
        resp.info.manager.is_active = true ∧
        resp.check lineageUpdater.name = .ok () ∧
        (([⟨[0, 1], 0, 1, true⟩, ⟨[1], 0, 1, true⟩, ⟨[], 2, 2, false⟩] :
          List Job).getLast hne).initial_sequence_number =
          resp.info.next_sequence_number)
    ∧ List.Chain' jobStep [⟨[0, 1], 0, 1, true⟩, ⟨[1], 0, 1, true⟩, ⟨[], 2, 2, false⟩]
    ∧ [([1], 0), ([0, 1], 0)] <+:
        submissionPlan [⟨[0, 1], 0, 1, true⟩, ⟨[1], 0, 1, true⟩, ⟨[], 2, 2, false⟩]
    ∧ (∀ j ∈ ([⟨[0, 1], 0, 1, true⟩, ⟨[1], 0, 1, true⟩, ⟨[], 2, 2, false⟩] : List Job),
        List.Pairwise (· < ·) ((jobPlan j).map Prod.snd)) :=
  claim5_lineage_jobs_and_order lineageUpdater 0 [0, 1] 1 _ _ _ _
    lineage_walk_eval lineage_run_eval

/-- Claim C6 (amended): when the lineage walk reaches a chain that the
validator reports — via a successful, authenticated response — as not
active and whose `split()` is `None`, the walk fails with the "inactive
chain" error naming that (current) chain; and any walk failure makes
`send_chain_information` fail with the same error with no replay job
submissions.  (The claim's "exactly when" fails: the same error can also
reach the caller as a verbatim client pass-through, see the
counterexample.) -/
theorem claim6_root_unknown_inactive (u : ValidatorUpdater) (inv : Nat)
    (chain_id r : ChainId) (target t2 : SequenceNumber) (jobs : List Job)
    (resp : ChainInfoResponse) (e : Error) :
    (u.handle_chain_info_query (mkQuery r) = .ok resp →
      resp.info.manager.is_active = false →
      resp.check u.name = .ok () →
      ChainId.split r = none →
      walk u r t2 jobs = .error (.inactiveChain r))
    ∧ (walk u chain_id target [] = .error e →
      send_chain_information u inv chain_id target = (.err e, [], inv)) := by
  refine ⟨fun hq ha hc hs => walk_root u r t2 jobs resp hq ha hc hs, fun hw => ?_⟩
  simp [send_chain_information, hw]

/-- Claim C6, counterexample to "exactly when": a client whose chain-info
query itself fails with an "inactive chain" error naming the queried chain
makes `send_chain_information` fail with that error naming the current
chain, although the current chain has a parent (`split ≠ none`) and the
validator never reported any chain as not active (it never returned a
successful response at all). -/
theorem claim6_counterexample :
    send_chain_information queryErrorUpdater 0 [9] 5 = (.err (.inactiveChain [9]), [], 0)
    ∧ ChainId.split [9] = some ([], 9)
    ∧ (∀ q, queryErrorUpdater.handle_chain_info_query q = .error (.inactiveChain [9])) := by
  have hw : walk queryErrorUpdater [9] 5 [] = .error (.inactiveChain [9]) :=
    walk_query_error queryErrorUpdater [9] 5 [] (.inactiveChain [9]) rfl
  exact ⟨by simp [send_chain_information, hw], rfl, fun q => rfl⟩

/-- Witness for C6 (amended): the walk from chain `[3]` reaches the unknown
root `[]` and the whole synchronization fails with the "inactive chain"
error naming the root, submitting nothing. -/
theorem claim6_witness :
    walk rootUnknownUpdater [] 4 [⟨[3], 0, 3, true⟩] = .error (.inactiveChain [])
    ∧ send_chain_information rootUnknownUpdater 0 [3] 3 =
        (.err (.inactiveChain []), [], 0) := by
  have hroot := (claim6_root_unknown_inactive rootUnknownUpdater 0 [3] [] 3 4
    [⟨[3], 0, 3, true⟩] ⟨⟨⟨false, none⟩, 0⟩, 2⟩ (.inactiveChain [])).1 rfl rfl rfl rfl
  have hstep := walk_step rootUnknownUpdater [3] 3 [] ⟨⟨⟨false, none⟩, 0⟩, 2⟩ [] 3 4
    rfl rfl rfl rfl rfl
  have hw : walk rootUnknownUpdater [3] 3 [] = .error (.inactiveChain []) := by
    rw [hstep]
    simpa using hroot
  exact ⟨hroot, (claim6_root_unknown_inactive rootUnknownUpdater 0 [3] [] 3 4
    [⟨[3], 0, 3, true⟩] ⟨⟨⟨false, none⟩, 0⟩, 2⟩ (.inactiveChain [])).2 hw⟩

/-- Claim C9: if for every recorded job the locally stored chain's
confirmed log has an entry at every index of `[initial, target)`, the
"certificate should be known locally" abort branch of the replay is
unreachable; a completed replay implies the logs were complete; and a
missing entry at the index about to be replayed aborts (`panicked`)
immediately, with no submission for it, rather than skipping it. -/
theorem claim9_missing_certificate_aborts (u : ValidatorUpdater) (inv : Nat)
    (chain_id : ChainId) (target : SequenceNumber) (jobs : List Job) (res : RunResult Unit)
    (log : List (ChainId × Nat)) (inv' : Nat)
    (hwalk : walk u chain_id target [] = .ok jobs)
    (hrun : send_chain_information u inv chain_id target = (res, log, inv')) :
    ((∀ j ∈ jobs, ∀ n, j.initial_sequence_number ≤ n → n < j.target_sequence_number →
        n < (u.store.read_chain_or_default j.chain_id).confirmed_log.length) →
      res ≠ RunResult.panicked)
    ∧ (res = .ok () → ∀ j ∈ jobs, ∀ n, j.initial_sequence_number ≤ n →
        n < j.target_sequence_number →
        n < (u.store.read_chain_or_default j.chain_id).confirmed_log.length)
    ∧ (∀ (cid : ChainId) (chain : ChainState) (retryable : Bool) (inv0 number : Nat)
        (rest : List Nat), chain.confirmed_log[number]? = none →
        replayNumbers u cid chain retryable inv0 (number :: rest) =
          (.panicked, [], inv0)) := by
  have hrun' : replayJobs u inv jobs.reverse = (res, log, inv') := by
    simp only [send_chain_information, hwalk] at hrun
    exact hrun
  refine ⟨?_, ?_, ?_⟩
  · intro hcomplete
    have hnp := replayJobs_no_panic u jobs.reverse inv
      (fun j hj => hcomplete j (List.mem_reverse.mp hj))
    rw [hrun'] at hnp
    exact hnp
  · intro hok j hj
    have hcm := replayJobs_ok_complete u jobs.reverse inv
    rw [hrun'] at hcm
    exact hcm hok j (List.mem_reverse.mpr hj)
  · intro cid chain retryable inv0 number rest h
    simp [replayNumbers, h]

/-- Witness for C9 in the concrete three-chain scenario (complete logs: no
abort), together with an abort at a concretely missing log index. -/
theorem claim9_witness :
    RunResult.ok () ≠ RunResult.panicked
    ∧ replayNumbers lineageUpdater [] ⟨[], []⟩ true 0 [0] = (.panicked, [], 0) := by
  have h := claim9_missing_certificate_aborts lineageUpdater 0 [0, 1] 1
    [⟨[0, 1], 0, 1, true⟩, ⟨[1], 0, 1, true⟩, ⟨[], 2, 2, false⟩] (.ok ())
    [([1], 0), ([0, 1], 0)] 2 lineage_walk_eval lineage_run_eval
  refine ⟨h.1 ?_, h.2.2 [] ⟨[], []⟩ true 0 0 [] rfl⟩
  intro j hj n h1 h2
  simp only [List.mem_cons, List.not_mem_nil, or_false] at hj
  rcases hj with rfl | rfl | rfl
  · exact h2
  · exact h2
  · have h1' : (2 : Nat) ≤ n := h1
    have h2' : n < 2 := h2
    exact absurd h2' (Nat.not_lt.mpr h1')

/-! ## Claims C7, C8, C10: `send_chain_update` -/

theorem Vote.check_ok {v : Vote} {name : ValidatorName} {x : Unit}
    (h : v.check name = .ok x) : v.validator = name := by
  unfold Vote.check at h
  split at h
  · assumption
  · cases h

/-- A successful vote extraction returns the pending vote, authenticated
against the expected validator name. -/
theorem voteFrom_ok {name : ValidatorName} {info : ChainInfo} {v : Option Vote}
    (h : voteFrom name info = .ok v) :
    ∃ vote, v = some vote ∧ vote.validator = name := by
  unfold voteFrom at h
  split at h
  · next vote hp =>
    split at h
    · next x hc =>
      injection h with h2
      exact ⟨vote, h2.symm, Vote.check_ok hc⟩
    · cases h
  · cases h

/-- Shape of every successful `send_chain_update` result: the advance
action yields no vote, every other action yields an authenticated vote. -/
theorem send_chain_update_ok_shape (u : ValidatorUpdater) (chain_id : ChainId)
    (action : CommunicateAction) (v : Option Vote) (n : Nat)
    (h : send_chain_update u chain_id action = (.ok v, n)) :
    (action.isAdvance = true ∧ v = none) ∨
      (action.isAdvance = false ∧ ∃ vote, v = some vote ∧ vote.validator = u.name) := by
  cases action with
  | SubmitRequestForValidation proposal =>
    refine Or.inr ⟨rfl, ?_⟩
    simp only [send_chain_update] at h
    split at h
    · simp at h
    · simp at h
    · split at h
      · rw [Prod.mk.injEq] at h
        obtain ⟨vote, rfl, hval⟩ := voteFrom_ok h.1
        exact ⟨vote, rfl, hval⟩
      · split at h
        · split at h
          · split at h
            · rw [Prod.mk.injEq] at h
              obtain ⟨vote, rfl, hval⟩ := voteFrom_ok h.1
              exact ⟨vote, rfl, hval⟩
            · simp at h
          · simp at h
          · simp at h
        · simp at h
  | SubmitRequestForConfirmation proposal =>
    refine Or.inr ⟨rfl, ?_⟩
    simp only [send_chain_update] at h
    split at h
    · simp at h
    · simp at h
    · split at h
      · rw [Prod.mk.injEq] at h
        obtain ⟨vote, rfl, hval⟩ := voteFrom_ok h.1
        exact ⟨vote, rfl, hval⟩
      · split at h
        · split at h
          · split at h
            · rw [Prod.mk.injEq] at h
              obtain ⟨vote, rfl, hval⟩ := voteFrom_ok h.1
              exact ⟨vote, rfl, hval⟩
            · simp at h
          · simp at h
          · simp at h
        · simp at h
  | FinalizeRequest certificate =>
    refine Or.inr ⟨rfl, ?_⟩
    cases hvr : certificate.value.validated_request with
    | none =>
      simp only [send_chain_update, hvr] at h
      simp at h
    | some request =>
      simp only [send_chain_update, hvr] at h
      split at h
      · simp at h
      · simp at h
      · split at h
        · rw [Prod.mk.injEq] at h
          obtain ⟨vote, rfl, hval⟩ := voteFrom_ok h.1
          exact ⟨vote, rfl, hval⟩
        · simp at h
  | AdvanceToNextSequenceNumber seq =>
    refine Or.inl ⟨rfl, ?_⟩
    simp only [send_chain_update] at h
    split at h
    · simp at h
    · simp at h
    · rw [Prod.mk.injEq] at h
      injection h.1 with h2
      exact h2.symm

/-- Claim C7: a successful `send_chain_update` returns `Ok(None)` exactly
for the pure advance action; every successful submit-proposal or finalize
call returns `Some(vote)` with the vote authenticated against the expected
validator name; and when the validator's returned chain info carries no
pending vote, the call fails with the "client error while processing block
proposal" error. -/
theorem claim7_vote_extraction (u : ValidatorUpdater) (chain_id : ChainId)
    (action : CommunicateAction) :
    (∀ v n, send_chain_update u chain_id action = (.ok v, n) →
      (v = none ↔ action.isAdvance = true))
    ∧ (∀ vote n, send_chain_update u chain_id action = (.ok (some vote), n) →
      vote.validator = u.name)
    ∧ (∀ proposal, (action = .SubmitRequestForValidation proposal ∨
        action = .SubmitRequestForConfirmation proposal) →
      ∀ log k info, send_chain_information u 0 chain_id proposal.request.sequence_number =
          (.ok (), log, k) →
        (send_block_proposal u 0 proposal).1 = .ok info →
        info.manager.pending = none →
        send_chain_update u chain_id action =
          (.err .clientErrorWhileProcessingBlockProposal, 1))
    ∧ (∀ certificate request, action = .FinalizeRequest certificate →
      certificate.value.validated_request = some request →
      ∀ log k info, send_chain_information u 0 chain_id request.sequence_number =
          (.ok (), log, k) →
        (send_certificate u k certificate (decide (request.sequence_number = 0))).1 =
          .ok info →
        info.manager.pending = none →
        send_chain_update u chain_id action =
          (.err .clientErrorWhileProcessingBlockProposal, 0)) := by
  refine ⟨?_, ?_, ?_, ?_⟩
  · intro v n h
    rcases send_chain_update_ok_shape u chain_id action v n h with ⟨hA, rfl⟩ |
      ⟨hA, vote, rfl, _⟩
    · simp [hA]
    · simp [hA]
  · intro vote n h
    rcases send_chain_update_ok_shape u chain_id action (some vote) n h with ⟨_, hnone⟩ |
      ⟨_, vote2, heq, hval⟩
    · cases hnone
    · injection heq with h2
      subst h2
      exact hval
  · intro proposal haction log k info hsync hbp hpending
    rcases haction with rfl | rfl <;>
      simp [send_chain_update, hsync, hbp, voteFrom, hpending]
  · intro certificate request haction hvr log k info hsync hcert hpending
    subst haction
    simp [send_chain_update, hvr, hsync, hcert, voteFrom, hpending]

/-- Witness for C7 on `voteUpdater`: a successful confirmation submission
yields the authenticated pending vote (not `None`), a pure advance yields
`Ok(None)`, and a proposal answered without a pending vote fails with the
protocol contract violation. -/
theorem claim7_witness :
    ((some ⟨3, 0⟩ : Option Vote) = none ↔
      (CommunicateAction.SubmitRequestForConfirmation ⟨⟨5, 0⟩⟩).isAdvance = true)
    ∧ (⟨3, 0⟩ : Vote).validator = voteUpdater.name
    ∧ ((none : Option Vote) = none ↔
      (CommunicateAction.AdvanceToNextSequenceNumber 5).isAdvance = true)
    ∧ send_chain_update voteUpdater [0] (.SubmitRequestForConfirmation ⟨⟨5, 1⟩⟩) =
        (.err .clientErrorWhileProcessingBlockProposal, 1) := by
  have hw := walk_active voteUpdater [0] 5 [] ⟨⟨⟨true, none⟩, 5⟩, 3⟩ rfl rfl rfl
  have hsync : send_chain_information voteUpdater 0 [0] 5 = (.ok (), [], 0) := by
    simp only [send_chain_information, hw]
    rfl
  have hgood : send_chain_update voteUpdater [0]
      (.SubmitRequestForConfirmation ⟨⟨5, 0⟩⟩) = (.ok (some ⟨3, 0⟩), 1) := by
    simp only [send_chain_update, hsync]
    rfl
  have hadv : send_chain_update voteUpdater [0]
      (.AdvanceToNextSequenceNumber 5) = (.ok none, 0) := by
    simp only [send_chain_update, hsync]
  refine ⟨(claim7_vote_extraction voteUpdater [0]
      (.SubmitRequestForConfirmation ⟨⟨5, 0⟩⟩)).1 (some ⟨3, 0⟩) 1 hgood,
    (claim7_vote_extraction voteUpdater [0]
      (.SubmitRequestForConfirmation ⟨⟨5, 0⟩⟩)).2.1 ⟨3, 0⟩ 1 hgood,
    (claim7_vote_extraction voteUpdater [0]
      (.AdvanceToNextSequenceNumber 5)).1 none 0 hadv,
    (claim7_vote_extraction voteUpdater [0]
      (.SubmitRequestForConfirmation ⟨⟨5, 1⟩⟩)).2.2.1 ⟨⟨5, 1⟩⟩ (Or.inr rfl) [] 0
      ⟨⟨true, none⟩, 5⟩ hsync rfl rfl⟩

/-- Claim C8: when the first proposal submission fails with an error
recognized as a retriable validation error for the proposal's request, the
updater runs the receiver-side synchronization and retries the proposal
exactly once (the second component counts `send_block_proposal`
invocations: 2 on the retry path, never more); a failure of the single
retry — or of the synchronization — propagates, and a first failure with a
non-retriable error propagates immediately with no resynchronization and
no retry (count 1). -/
theorem claim8_retriable_validation_retry (u : ValidatorUpdater) (chain_id : ChainId)
    (proposal : BlockProposal) (action : CommunicateAction)
    (haction : action = .SubmitRequestForValidation proposal ∨
      action = .SubmitRequestForConfirmation proposal)
    (log : List (ChainId × Nat)) (k : Nat)
    (hsync : send_chain_information u 0 chain_id proposal.request.sequence_number =
      (.ok (), log, k))
    (e : Error) (hfail : (send_block_proposal u 0 proposal).1 = .error e) :
    (ChainState.is_retriable_validation_error proposal.request e = false →
      send_chain_update u chain_id action = (.err e, 1))
    ∧ (ChainState.is_retriable_validation_error proposal.request e = true →
      (∀ e2 rlog rinv, send_chain_information_as_a_receiver u k chain_id =
          (.err e2, rlog, rinv) →
        send_chain_update u chain_id action = (.err e2, 1))
      ∧ (∀ rlog rinv, send_chain_information_as_a_receiver u k chain_id =
          (.ok (), rlog, rinv) →
        (∀ e2, (send_block_proposal u 1 proposal).1 = .error e2 →
          send_chain_update u chain_id action = (.err e2, 2))
        ∧ (∀ info, (send_block_proposal u 1 proposal).1 = .ok info →
          send_chain_update u chain_id action = (voteFrom u.name info, 2)))) := by
  refine ⟨?_, ?_⟩
  · intro hpred
    rcases haction with rfl | rfl <;>
      simp [send_chain_update, hsync, hfail, hpred]
  · intro hpred
    refine ⟨?_, ?_⟩
    · intro e2 rlog rinv hresync
      rcases haction with rfl | rfl <;>
        simp [send_chain_update, hsync, hfail, hpred, hresync]
    · intro rlog rinv hresync
      refine ⟨?_, ?_⟩
      · intro e2 hbp2
        rcases haction with rfl | rfl <;>
          simp [send_chain_update, hsync, hfail, hpred, hresync, hbp2]
      · intro info hbp2
        rcases haction with rfl | rfl <;>
          simp [send_chain_update, hsync, hfail, hpred, hresync, hbp2]

/-- Witness for C8 on `retriableUpdater`: the retriable first failure leads
to one resynchronization and one successful retry (2 proposal invocations);
a non-retriable first failure propagates with a single invocation. -/
theorem claim8_witness :
    send_chain_update retriableUpdater [2] (.SubmitRequestForConfirmation ⟨⟨9, 0⟩⟩) =
      (.ok (some ⟨4, 0⟩), 2)
    ∧ send_chain_update retriableUpdater [2] (.SubmitRequestForConfirmation ⟨⟨9, 1⟩⟩) =
      (.err (.other 9), 1) := by
  have hw := walk_active retriableUpdater [2] 9 [] ⟨⟨⟨true, none⟩, 9⟩, 4⟩ rfl rfl rfl
  have hsync : send_chain_information retriableUpdater 0 [2] 9 = (.ok (), [], 0) := by
    simp only [send_chain_information, hw]
    rfl
  constructor
  · exact ((claim8_retriable_validation_retry retriableUpdater [2] ⟨⟨9, 0⟩⟩ _
      (Or.inr rfl) [] 0 hsync (.insufficientFunding 0) rfl).2 rfl).2 [] 0 rfl |>.2
      ⟨⟨true, some ⟨4, 0⟩⟩, 9⟩ rfl
  · exact (claim8_retriable_validation_retry retriableUpdater [2] ⟨⟨9, 1⟩⟩ _
      (Or.inr rfl) [] 0 hsync (.other 9) rfl).1 rfl

/-- Claim C10: a `FinalizeRequest` whose certificate value wraps no
validated request makes `send_chain_update` abort (the `unwrap` panic)
while deriving the target sequence number — for every updater, so for
every client behaviour, hence before any validator interaction — instead
of returning an `Error` value; in particular no proposal invocation is
made. -/
theorem claim10_finalize_unwrap_panics (u : ValidatorUpdater) (chain_id : ChainId)
    (certificate : Certificate)
    (h : certificate.value.validated_request = none) :
    send_chain_update u chain_id (.FinalizeRequest certificate) = (.panicked, 0) := by
  simp [send_chain_update, h]

/-- Witness for C10: a certificate wrapping a confirmed (not validated)
request. -/
theorem claim10_witness :
    send_chain_update retryUpdater [0]
      (.FinalizeRequest ⟨Value.confirmed ⟨0, 0⟩⟩) = (.panicked, 0) :=
  claim10_finalize_unwrap_panics retryUpdater [0] ⟨Value.confirmed ⟨0, 0⟩⟩ rfl
